import Mathlib

/-!
Verification of the spatial-acceleration core of the lightmetrica-v2
renderer: the numeric and vector layer (`include/lightmetrica/math.h`),
the axis-aligned bound type (`include/lightmetrica/bound.h`) and the BVH
accelerator (`src/liblightmetrica/accel/accel_bvh.cpp`).

The configurable floating-point scalar (`Float`, single or double
precision) is embedded as `ℚ` (exact arithmetic).  Infinities, which the
code stores only in the corners of the default-constructed empty `Bound`
(`min = +Inf`, `max = -Inf`), are embedded by the extended scalar
`EF := WithBot (WithTop ℚ)` with `⊥ = -Inf` and `⊤ = +Inf`.

Parts of the repository that the accelerator uses but whose sources are
not present under `src/` (`Math::Eps`, `Math::Min`/`Math::Max` on
vectors, `Bound::Intersect`, `TriAccelTriangle`, the scene / mesh /
primitive interfaces and the `Vec4` to `Vec3` truncation) are modelled
from the spec; each such definition carries a doc comment starting with
`Modelled from the spec:`.
-/

namespace LM

/-- Extended scalar for `Bound` corners: `ℚ` together with `-∞` (`⊥`) and
`+∞` (`⊤`), mirroring the IEEE infinities of the empty box in `bound.h`. -/
abbrev EF : Type := WithBot (WithTop ℚ)

/-- Embed a finite scalar into `EF`. -/
def qEF (q : ℚ) : EF := ((q : WithTop ℚ) : EF)

/-- Apply a function to the finite part of an `EF`, fixing both infinities
(the image of a monotone float map such as subtracting a constant). -/
def efMap (f : ℚ → ℚ) (a : EF) : EF :=
  WithBot.recBotCoe ⊥ (fun b => WithTop.recTopCoe ⊤ (fun q => qEF (f q)) b) a

/-- 3D vector over the exact scalar; embeds `TVec3<T, SIMD::None>` of
`math.h` (three components `x`, `y`, `z`). -/
structure Vec3 where
  x : ℚ
  y : ℚ
  z : ℚ
deriving DecidableEq

/-- 4D vector; embeds `TVec4<T, SIMD::None>` of `math.h`. -/
structure Vec4 where
  x : ℚ
  y : ℚ
  z : ℚ
  w : ℚ
deriving DecidableEq

/-- Componentwise vector addition: `operator+` for `SIMD::None` vectors
(`math.h` lines 536-543, the per-component loop), at 3 components. -/
def vec3addNone (v1 v2 : Vec3) : Vec3 :=
  ⟨v1.x + v2.x, v1.y + v2.y, v1.z + v2.z⟩

/-- Componentwise vector subtraction: `operator-` for `SIMD::None`
vectors (`math.h` lines 563-570), at 3 components. -/
def vec3subNone (v1 v2 : Vec3) : Vec3 :=
  ⟨v1.x - v2.x, v1.y - v2.y, v1.z - v2.z⟩

/-- Componentwise vector multiplication: `operator*` for `SIMD::None`
vectors (`math.h` lines 590-597), at 3 components. -/
def vec3mulNone (v1 v2 : Vec3) : Vec3 :=
  ⟨v1.x * v2.x, v1.y * v2.y, v1.z * v2.z⟩

/-- Componentwise vector division: `operator/` for `SIMD::None` vectors
(`math.h` lines 713-720), at 3 components. -/
def vec3divNone (v1 v2 : Vec3) : Vec3 :=
  ⟨v1.x / v2.x, v1.y / v2.y, v1.z / v2.z⟩

/-- Vector-scalar product: `operator*(v, s)` for `SIMD::None` vectors
(`math.h` lines 599-606), at 3 components. -/
def vec3scaleNone (v : Vec3) (s : ℚ) : Vec3 :=
  ⟨v.x * s, v.y * s, v.z * s⟩

/-- Componentwise addition at 4 components (`math.h` lines 536-543). -/
def vec4addNone (v1 v2 : Vec4) : Vec4 :=
  ⟨v1.x + v2.x, v1.y + v2.y, v1.z + v2.z, v1.w + v2.w⟩

/-- Componentwise subtraction at 4 components (`math.h` lines 563-570). -/
def vec4subNone (v1 v2 : Vec4) : Vec4 :=
  ⟨v1.x - v2.x, v1.y - v2.y, v1.z - v2.z, v1.w - v2.w⟩

/-- Componentwise multiplication at 4 components (`math.h` 590-597). -/
def vec4mulNone (v1 v2 : Vec4) : Vec4 :=
  ⟨v1.x * v2.x, v1.y * v2.y, v1.z * v2.z, v1.w * v2.w⟩

/-- Componentwise division at 4 components (`math.h` lines 713-720). -/
def vec4divNone (v1 v2 : Vec4) : Vec4 :=
  ⟨v1.x / v2.x, v1.y / v2.y, v1.z / v2.z, v1.w / v2.w⟩

/-- Scalar 3-vector dot product, `Math::Dot` generic template
(`math.h` lines 779-783): `x1*x2 + y1*y2 + z1*z2`. -/
def dotNone3 (v1 v2 : Vec3) : ℚ :=
  v1.x * v2.x + v1.y * v2.y + v1.z * v2.z

/-- Scalar 4-vector dot product, `Math::Dot` generic template
(`math.h` lines 805-809). -/
def dotNone4 (v1 v2 : Vec4) : ℚ :=
  v1.x * v2.x + v1.y * v2.y + v1.z * v2.z + v1.w * v2.w

/-- Scalar squared length, `Math::Length2` generic template
(`math.h` lines 858-862): `Dot(v, v)`. -/
def length2None3 (v : Vec3) : ℚ := dotNone3 v v

/-- Scalar squared length at 4 components (`math.h` lines 858-862). -/
def length2None4 (v : Vec4) : ℚ := dotNone4 v v

/-- Scalar length, `Math::Length` generic template (`math.h` lines
834-838): `Sqrt(Length2(v))`.  The square root (`std::sqrt`) is passed in
as an explicit function argument `s`, since both the scalar and the SIMD
variants invoke the same hardware square root on their radicand. -/
def lengthNone3 (s : ℚ → ℚ) (v : Vec3) : ℚ := s (length2None3 v)

/-- Scalar length at 4 components (`math.h` lines 834-838). -/
def lengthNone4 (s : ℚ → ℚ) (v : Vec4) : ℚ := s (length2None4 v)

/-- One 4-lane SIMD register (`__m128` of floats or `__m256d` of
doubles), with lanes held as exact scalars. -/
structure Lanes4 where
  l0 : ℚ
  l1 : ℚ
  l2 : ℚ
  l3 : ℚ
deriving DecidableEq

/-- One 2-lane register (`__m128d`), used inside the AVX dot product. -/
structure Lanes2 where
  l0 : ℚ
  l1 : ℚ
deriving DecidableEq

/-- Lanewise add: `_mm_add_ps` and `_mm256_add_pd`. -/
def mmAdd (a b : Lanes4) : Lanes4 :=
  ⟨a.l0 + b.l0, a.l1 + b.l1, a.l2 + b.l2, a.l3 + b.l3⟩

/-- Lanewise subtract: `_mm_sub_ps` and `_mm256_sub_pd`. -/
def mmSub (a b : Lanes4) : Lanes4 :=
  ⟨a.l0 - b.l0, a.l1 - b.l1, a.l2 - b.l2, a.l3 - b.l3⟩

/-- Lanewise multiply: `_mm_mul_ps` and `_mm256_mul_pd`. -/
def mmMul (a b : Lanes4) : Lanes4 :=
  ⟨a.l0 * b.l0, a.l1 * b.l1, a.l2 * b.l2, a.l3 * b.l3⟩

/-- Lanewise divide: `_mm_div_ps` and `_mm256_div_pd`. -/
def mmDiv (a b : Lanes4) : Lanes4 :=
  ⟨a.l0 / b.l0, a.l1 / b.l1, a.l2 / b.l2, a.l3 / b.l3⟩

/-- Dot-product intrinsic `_mm_dp_ps` with mask `0x71`: multiply lanes
0-2, sum, return the scalar lane 0 (`_mm_cvtss_f32` applied). -/
def mmDp71 (a b : Lanes4) : ℚ :=
  a.l0 * b.l0 + a.l1 * b.l1 + a.l2 * b.l2

/-- Dot-product intrinsic `_mm_dp_ps` with mask `0xf1`: multiply all four
lanes, sum, return the scalar lane 0 (`_mm_cvtss_f32` applied). -/
def mmDpF1 (a b : Lanes4) : ℚ :=
  a.l0 * b.l0 + a.l1 * b.l1 + a.l2 * b.l2 + a.l3 * b.l3

/-- Horizontal add `_mm256_hadd_pd a b`: lanes
`(a0+a1, b0+b1, a2+a3, b2+b3)`. -/
def mmHadd (a b : Lanes4) : Lanes4 :=
  ⟨a.l0 + a.l1, b.l0 + b.l1, a.l2 + a.l3, b.l2 + b.l3⟩

/-- Blend `_mm256_blend_pd a b 0x8`: take lane 3 from `b`. -/
def mmBlend8 (a b : Lanes4) : Lanes4 := ⟨a.l0, a.l1, a.l2, b.l3⟩

/-- High half extraction `_mm256_extractf128_pd a 1`: lanes 2-3. -/
def mmExtractHi (a : Lanes4) : Lanes2 := ⟨a.l2, a.l3⟩

/-- Low half cast `_mm256_castpd256_pd128`: lanes 0-1. -/
def mmCastLo (a : Lanes4) : Lanes2 := ⟨a.l0, a.l1⟩

/-- Two-lane add `_mm_add_pd`. -/
def mmAdd2 (a b : Lanes2) : Lanes2 := ⟨a.l0 + b.l0, a.l1 + b.l1⟩

/-- All-zero register `_mm256_setzero_pd`. -/
def mmZero : Lanes4 := ⟨0, 0, 0, 0⟩

/-- SIMD 3-vector, `TVec3<float, SIMD::SSE>` and
`TVec3<double, SIMD::AVX>` of `math.h`: a 4-lane register whose lanes 0-2
are `x`, `y`, `z`; the component constructor sets the unused lane 3
to `1` (`_mm_set_ps(1.0f, z, y, x)`, `math.h` line 244 and 270). -/
structure Vec3S where
  v : Lanes4
deriving DecidableEq

/-- Component constructor of the SIMD 3-vector (`math.h` line 244). -/
def vec3Sof (x y z : ℚ) : Vec3S := ⟨⟨x, y, z, 1⟩⟩

/-- Observable components of a SIMD 3-vector (`operator[]` reads the
fields `x`, `y`, `z` laid over lanes 0-2). -/
def vec3Sread (a : Vec3S) : Vec3 := ⟨a.v.l0, a.v.l1, a.v.l2⟩

/-- SIMD 4-vector, `TVec4<float, SIMD::SSE>` and
`TVec4<double, SIMD::AVX>` of `math.h`. -/
structure Vec4S where
  v : Lanes4
deriving DecidableEq

/-- Component constructor of the SIMD 4-vector (`math.h` line 335). -/
def vec4Sof (x y z w : ℚ) : Vec4S := ⟨⟨x, y, z, w⟩⟩

/-- Observable components of a SIMD 4-vector. -/
def vec4Sread (a : Vec4S) : Vec4 := ⟨a.v.l0, a.v.l1, a.v.l2, a.v.l3⟩

/-- SIMD vector add specialization (`math.h` lines 545-555). -/
def vec3addS (a b : Vec3S) : Vec3S := ⟨mmAdd a.v b.v⟩

/-- SIMD vector subtract specialization (`math.h` lines 572-582). -/
def vec3subS (a b : Vec3S) : Vec3S := ⟨mmSub a.v b.v⟩

/-- SIMD vector multiply specialization (`math.h` lines 608-624). -/
def vec3mulS (a b : Vec3S) : Vec3S := ⟨mmMul a.v b.v⟩

/-- SIMD vector divide specialization (`math.h` lines 722-732). -/
def vec3divS (a b : Vec3S) : Vec3S := ⟨mmDiv a.v b.v⟩

/-- SIMD 4-vector add specialization (`math.h` lines 545-555). -/
def vec4addS (a b : Vec4S) : Vec4S := ⟨mmAdd a.v b.v⟩

/-- SIMD 4-vector subtract specialization (`math.h` lines 572-582). -/
def vec4subS (a b : Vec4S) : Vec4S := ⟨mmSub a.v b.v⟩

/-- SIMD 4-vector multiply specialization (`math.h` lines 608-624). -/
def vec4mulS (a b : Vec4S) : Vec4S := ⟨mmMul a.v b.v⟩

/-- SIMD 4-vector divide specialization (`math.h` lines 722-732). -/
def vec4divS (a b : Vec4S) : Vec4S := ⟨mmDiv a.v b.v⟩

/-- SSE 3-vector dot specialization (`math.h` lines 785-789):
`_mm_cvtss_f32(_mm_dp_ps(v1.v_, v2.v_, 0x71))`. -/
def dotSSE3 (a b : Vec3S) : ℚ := mmDp71 a.v b.v

/-- SSE 4-vector dot specialization (`math.h` lines 811-815):
`_mm_cvtss_f32(_mm_dp_ps(v1.v_, v2.v_, 0xf1))`. -/
def dotSSE4 (a b : Vec4S) : ℚ := mmDpF1 a.v b.v

/-- AVX 3-vector dot specialization (`math.h` lines 791-803): blend away
lane 3, lanewise multiply, horizontal-add chain, return lane 0. -/
def dotAVX3 (a b : Vec3S) : ℚ :=
  let tv1 := mmBlend8 a.v mmZero
  let tv2 := mmBlend8 b.v mmZero
  let t1 := mmMul tv1 tv2
  let t2 := mmHadd t1 t1
  let t3 := mmExtractHi t2
  let t4 := mmCastLo t2
  (mmAdd2 t3 t4).l0

/-- AVX 4-vector dot specialization (`math.h` lines 817-826). -/
def dotAVX4 (a b : Vec4S) : ℚ :=
  let t1 := mmMul a.v b.v
  let t2 := mmHadd t1 t1
  let t3 := mmExtractHi t2
  let t4 := mmCastLo t2
  (mmAdd2 t3 t4).l0

/-- SSE squared-length specialization (`math.h` lines 864-874). -/
def length2SSE3 (a : Vec3S) : ℚ := mmDp71 a.v a.v

/-- SSE squared-length specialization at 4 components (`math.h` 864-874). -/
def length2SSE4 (a : Vec4S) : ℚ := mmDpF1 a.v a.v

/-- SSE length specialization (`math.h` lines 840-850):
`_mm_cvtss_f32(_mm_sqrt_ss(_mm_dp_ps(v, v, 0x71)))`; the square root is
the explicit function argument `s`. -/
def lengthSSE3 (s : ℚ → ℚ) (a : Vec3S) : ℚ := s (mmDp71 a.v a.v)

/-- SSE length specialization at 4 components (`math.h` lines 840-850). -/
def lengthSSE4 (s : ℚ → ℚ) (a : Vec4S) : ℚ := s (mmDpF1 a.v a.v)

/-- Column-major 3x3 matrix, `TMat3` of `math.h` (lines 425-455); `c0`,
`c1`, `c2` are the three column vectors. -/
structure Mat3 where
  c0 : Vec3
  c1 : Vec3
  c2 : Vec3
deriving DecidableEq

/-- Column-major 4x4 matrix, `TMat4` of `math.h` (lines 474-506). -/
structure Mat4 where
  c0 : Vec4
  c1 : Vec4
  c2 : Vec4
  c3 : Vec4
deriving DecidableEq

/-- Matrix returned by `TMat3::Identity()` (`math.h` line 449):
`MatT{ 1,0,0, 0,1,0, 0,1,0 }`, i.e. columns `(1,0,0)`, `(0,1,0)` and
`(0,1,0)` under the column-major initializer-list constructor. -/
def mat3IdentityCode : Mat3 := ⟨⟨1, 0, 0⟩, ⟨0, 1, 0⟩, ⟨0, 1, 0⟩⟩

/-- The true multiplicative identity of 3x3 matrices (what
`TMat3::Identity()` is named for): columns `(1,0,0)`, `(0,1,0)`,
`(0,0,1)`. -/
def mat3IdentityTrue : Mat3 := ⟨⟨1, 0, 0⟩, ⟨0, 1, 0⟩, ⟨0, 0, 1⟩⟩

/-- Matrix returned by `TMat4::Identity()` (`math.h` line 500). -/
def mat4Identity : Mat4 :=
  ⟨⟨1, 0, 0, 0⟩, ⟨0, 1, 0, 0⟩, ⟨0, 0, 1, 0⟩, ⟨0, 0, 0, 1⟩⟩

/-- Matrix-vector product `operator*(TMat3, TVec3)` (`math.h` lines
638-645); `m[c][r]` is row `r` of column `c`. -/
def mat3mulVec (m : Mat3) (v : Vec3) : Vec3 :=
  ⟨m.c0.x * v.x + m.c1.x * v.y + m.c2.x * v.z,
   m.c0.y * v.x + m.c1.y * v.y + m.c2.y * v.z,
   m.c0.z * v.x + m.c1.z * v.y + m.c2.z * v.z⟩

/-- Matrix-matrix product `operator*(TMat3, TMat3)` (`math.h` lines
632-636): columns are `m1 * m2[j]`. -/
def mat3mulMat (m1 m2 : Mat3) : Mat3 :=
  ⟨mat3mulVec m1 m2.c0, mat3mulVec m1 m2.c1, mat3mulVec m1 m2.c2⟩

/-- Matrix-vector product `operator*(TMat4, TVec4)` (`math.h` lines
673-681). -/
def mat4mulVec (m : Mat4) (v : Vec4) : Vec4 :=
  ⟨m.c0.x * v.x + m.c1.x * v.y + m.c2.x * v.z + m.c3.x * v.w,
   m.c0.y * v.x + m.c1.y * v.y + m.c2.y * v.z + m.c3.y * v.w,
   m.c0.z * v.x + m.c1.z * v.y + m.c2.z * v.z + m.c3.z * v.w,
   m.c0.w * v.x + m.c1.w * v.y + m.c2.w * v.z + m.c3.w * v.w⟩

/-- Modelled from the spec: the truncating `Vec3(Vec4)` conversion used
at `accel_bvh.cpp` lines 97-99 (the converting constructor itself is not
among the sources; the spec keeps only the world-space position, i.e. the
first three components). -/
def vec3ofVec4 (v : Vec4) : Vec3 := ⟨v.x, v.y, v.z⟩

/-- Vector of extended scalars: the value of a `Vec3` field of `Bound`,
which can hold the infinities of the empty box. -/
structure EVec3 where
  x : EF
  y : EF
  z : EF
deriving DecidableEq

/-- Embed a finite vector into `EVec3`. -/
def evOfVec3 (p : Vec3) : EVec3 := ⟨qEF p.x, qEF p.y, qEF p.z⟩

/-- Modelled from the spec: componentwise vector minimum `Math::Min`
(used by `Math::Union` in `bound.h`; its own source is not present). -/
def evMin (a b : EVec3) : EVec3 := ⟨min a.x b.x, min a.y b.y, min a.z b.z⟩

/-- Modelled from the spec: componentwise vector maximum `Math::Max`
(used by `Math::Union` in `bound.h`; its own source is not present). -/
def evMax (a b : EVec3) : EVec3 := ⟨max a.x b.x, max a.y b.y, max a.z b.z⟩

/-- Apply a finite-part map to every component of an `EVec3`. -/
def evMap (f : ℚ → ℚ) (a : EVec3) : EVec3 :=
  ⟨efMap f a.x, efMap f a.y, efMap f a.z⟩

/-- Axis-aligned bounding box, `Bound` of `bound.h` (lines 37-41): `min`
and `max` corners. -/
structure Bound where
  min : EVec3
  max : EVec3
deriving DecidableEq

/-- Default-constructed `Bound` (`bound.h` lines 39-40): the empty box
with `min = +Inf` and `max = -Inf` on every axis. -/
def boundDefault : Bound := ⟨⟨⊤, ⊤, ⊤⟩, ⟨⊥, ⊥, ⊥⟩⟩

/-- Merge two bounds, `Math::Union(Bound, Bound)` (`bound.h` lines
46-52): componentwise `Min` of the `min` corners and `Max` of the `max`
corners. -/
def Union (a b : Bound) : Bound := ⟨evMin a.min b.min, evMax a.max b.max⟩

/-- Merge a bound and a point, `Math::Union(Bound, Vec3)` (`bound.h`
lines 55-61). -/
def UnionPt (a : Bound) (p : Vec3) : Bound :=
  ⟨evMin a.min (evOfVec3 p), evMax a.max (evOfVec3 p)⟩

/-- Modelled from the spec: `Math::Eps()`, the small fixed positive
epsilon by which every per-triangle bound is expanded outward on each
axis (its own source is not present under `src/`). -/
def mathEps : ℚ := 1 / 10000000

/-- Per-triangle bound before epsilon expansion, `accel_bvh.cpp` lines
102-105: the empty bound unioned with the three world-space vertices. -/
def triBoundPre (p1 p2 p3 : Vec3) : Bound :=
  UnionPt (UnionPt (UnionPt boundDefault p1) p2) p3

/-- Per-triangle bound as stored by `Build`, `accel_bvh.cpp` lines
102-107: the pre-epsilon bound with `min -= Eps` and `max += Eps` on
every axis. -/
def triBound (p1 p2 p3 : Vec3) : Bound :=
  let b := triBoundPre p1 p2 p3
  ⟨evMap (fun q => q - mathEps) b.min, evMap (fun q => q + mathEps) b.max⟩

/-- Ray with origin `o` and direction `d` (`Ray` of the renderer; only
these two fields are read by the accelerator). -/
structure Ray where
  o : Vec3
  d : Vec3
deriving DecidableEq

/-- Parametric slab coordinate `(c - o) / d` for a corner `c : EF` and a
nonzero direction component `d`, with signed-infinity semantics: an
infinite corner divides to the infinity of the sign of `d`. -/
def slabCoord (c : EF) (o d : ℚ) : EF :=
  WithBot.recBotCoe (if 0 < d then (⊥ : EF) else (⊤ : EF))
    (fun b =>
      WithTop.recTopCoe (if 0 < d then (⊤ : EF) else (⊥ : EF))
        (fun q => qEF ((q - o) / d)) b) c

/-- Modelled from the spec: one axis of `Bound::Intersect` (whose source
is not under `src/`): clip the running parametric interval `[lo, hi]` by
the slab of this axis; a zero direction component is handled by the
explicit guard the spec allows (the ray is parallel to the slab, so it
passes the axis exactly when the origin lies between the two planes). -/
def slabAxis (bmin bmax : EF) (o d : ℚ) (lohi : Option (EF × EF)) :
    Option (EF × EF) :=
  match lohi with
  | none => none
  | some (lo, hi) =>
    if d = 0 then
      if bmin ≤ qEF o ∧ qEF o ≤ bmax then some (lo, hi) else none
    else
      let t1 := slabCoord bmin o d
      let t2 := slabCoord bmax o d
      some (max lo (min t1 t2), min hi (max t1 t2))

/-- Modelled from the spec: `Bound::Intersect(ray, tMin, tMax)` (source
not under `src/`): per-axis slab clipping of the parametric interval,
reporting whether the clipped interval still overlaps `[tMin, tMax]`. -/
def boundIntersect (bnd : Bound) (r : Ray) (minT maxT : ℚ) : Bool :=
  let s0 : Option (EF × EF) := some (qEF minT, qEF maxT)
  let s1 := slabAxis bnd.min.x bnd.max.x r.o.x r.d.x s0
  let s2 := slabAxis bnd.min.y bnd.max.y r.o.y r.d.y s1
  let s3 := slabAxis bnd.min.z bnd.max.z r.o.z r.d.z s2
  match s3 with
  | none => false
  | some (lo, hi) => decide (lo ≤ hi)

/-- Modelled from the spec: the triangle-mesh interface consumed by the
accelerator (`trianglemesh.h` is not under `src/`; spec section 6): a
flat position array of stride 3 and a flat face-index array of stride 3
whose entries index the position array. -/
structure TriangleMesh where
  positions : List ℚ
  faces : List ℕ
deriving DecidableEq

/-- Face count of a mesh (`NumFaces`): one face per stride-3 triple of
the face-index array. -/
def numFaces (m : TriangleMesh) : ℕ := m.faces.length / 3

/-- Read of the flat position array `ps[k]`.  The C++ read is unchecked
(a raw pointer); an out-of-range index is modelled as reading `0`. -/
def posAt (m : TriangleMesh) (k : ℕ) : ℚ := m.positions.getD k 0

/-- Read of the flat face-index array `faces[k]`, unchecked as above. -/
def faceAt (m : TriangleMesh) (k : ℕ) : ℕ := m.faces.getD k 0

/-- Modelled from the spec: a scene primitive (`primitive.h` is not under
`src/`): a possibly-absent mesh handle and a 4x4 world transform. -/
structure Primitive where
  mesh : Option TriangleMesh
  transform : Mat4
deriving DecidableEq

/-- Modelled from the spec: the scene as consumed by the accelerator
(`scene.h` is not under `src/`): the flat list of primitives, addressed
by index (`NumPrimitives` / `PrimitiveAt`). -/
abbrev Scene : Type := List Primitive

/-- Lookup `scene->PrimitiveAt(i)`; all lookups the accelerator performs
are in range, out-of-range is modelled by a default primitive. -/
def primAt (s : Scene) (i : ℕ) : Primitive := s.getD i ⟨none, mat4Identity⟩

/-- Precomputed triangle, `TriAccelTriangle` (`triaccel.h` is not under
`src/`).  Modelled from the spec: the face index within the owning mesh,
the owning primitive index, and a representation of the three
world-space vertices sufficient for the intersection test (the vertices
themselves). -/
structure TriAccelTriangle where
  faceIndex : ℕ
  primIndex : ℕ
  p1 : Vec3
  p2 : Vec3
  p3 : Vec3
deriving DecidableEq

/-- World-space position of vertex `vi` of a primitive's mesh
(`accel_bvh.cpp` lines 97-99): the mesh position triple transformed by
`prim->transform` with homogeneous coordinate 1, truncated to 3D. -/
def worldVertex (tr : Mat4) (m : TriangleMesh) (vi : ℕ) : Vec3 :=
  vec3ofVec4 (mat4mulVec tr
    ⟨posAt m (3 * vi), posAt m (3 * vi + 1), posAt m (3 * vi + 2), 1⟩)

/-- Triangle appended for face `j` of primitive `i` (`accel_bvh.cpp`
lines 91-100). -/
def mkTriangle (i : ℕ) (tr : Mat4) (m : TriangleMesh) (j : ℕ) :
    TriAccelTriangle :=
  { faceIndex := j
    primIndex := i
    p1 := worldVertex tr m (faceAt m (3 * j))
    p2 := worldVertex tr m (faceAt m (3 * j + 1))
    p3 := worldVertex tr m (faceAt m (3 * j + 2)) }

/-- Triangles contributed by primitive `i` (`accel_bvh.cpp` lines
79-111): none when the mesh handle is absent, else one per face. -/
def primTriangles (i : ℕ) (p : Primitive) : List TriAccelTriangle :=
  match p.mesh with
  | none => []
  | some m => (List.range (numFaces m)).map (mkTriangle i p.transform m)

/-- All triangles appended by one `Build` call over a scene, in
primitive-then-face order (`accel_bvh.cpp` lines 78-111). -/
def sceneTriangles (s : Scene) : List TriAccelTriangle :=
  (s.enum.map (fun q => primTriangles q.1 q.2)).flatten

/-- The local `bounds_` vector of `Build`: one epsilon-expanded bound per
appended triangle, in the same order (`accel_bvh.cpp` lines 102-108). -/
def sceneBounds (s : Scene) : List Bound :=
  (sceneTriangles s).map (fun t => triBound t.p1 t.p2 t.p3)

/-- Tree node, `BVHNode` of `accel_bvh.cpp` (lines 36-55).  The C++
union overlays `leaf.begin`/`leaf.end` and
`internal.child1`/`internal.child2` over the same two integers; they are
the fields `a` and `b`, discriminated by `isleaf`. -/
structure BVHNode where
  isleaf : Bool
  bound : Bound
  a : ℕ
  b : ℕ
deriving DecidableEq

/-- Read of `bounds_[i]` during node construction.  The C++ read is
unchecked; an out-of-range index (reachable only through the stale
triangles kept by a second `Build`, see the `nodes_.clear()` at line 149
with no matching clear of `triangles_`) is modelled as the empty bound. -/
def boundAt (bs : List Bound) (i : ℕ) : Bound := bs.getD i boundDefault

/-- Union of `bounds_[i]` over `i ∈ [b, e)` starting from the
default-constructed bound (`accel_bvh.cpp` lines 125-128). -/
def rangeUnion (bs : List Bound) (b e : ℕ) : Bound :=
  (List.range' b (e - b)).foldl (fun acc i => Union acc (boundAt bs i))
    boundDefault

/-- Leaf size threshold `LeafNumNodes` (`accel_bvh.cpp` line 131). -/
def leafNumNodes : ℕ := 10

/-- The recursive lambda `Build_` of `accel_bvh.cpp` (lines 119-147):
append a node for the triangle index range `[b, e)`, computing its bound
as the union over the range; emit a leaf when the range is below the
threshold, otherwise split at the midpoint index and recurse.  Returns
the grown node list and the index of the created node. -/
def buildNodes (bs : List Bound) (b e : ℕ) (nodes : List BVHNode) :
    List BVHNode × ℕ :=
  let idx := nodes.length
  let bound := rangeUnion bs b e
  if e - b < 10 then
    (nodes ++ [⟨true, bound, b, e⟩], idx)
  else
    let mid := b + (e - b) / 2
    let r1 := buildNodes bs b mid (nodes ++ [⟨false, bound, 0, 0⟩])
    let r2 := buildNodes bs mid e r1.1
    (r2.1.set idx ⟨false, bound, r1.2, r2.2⟩, idx)
termination_by e - b
decreasing_by
  · omega
  · omega

/-- Accelerator state: the member vectors `triangles_` and `nodes_` of
`Accel_BVH` (`accel_bvh.cpp` lines 216-217). -/
structure AccelState where
  triangles : List TriAccelTriangle
  nodes : List BVHNode
deriving DecidableEq

/-- Freshly constructed accelerator: both member vectors empty. -/
def emptyAccel : AccelState := ⟨[], []⟩

/-- The `Build` operation (`accel_bvh.cpp` lines 70-157) from a prior
accelerator state: push one triangle and one local bound per face of
every primitive with a mesh (appending to the member `triangles_`, which
is never cleared), clear `nodes_`, run `Build_(0, triangles_.size())`,
and return `true`. -/
def build (st : AccelState) (s : Scene) : AccelState × Bool :=
  let tris := st.triangles ++ sceneTriangles s
  let bs := sceneBounds s
  (⟨tris, (buildNodes bs 0 tris.length []).1⟩, true)

/-- First `Build` on a fresh accelerator. -/
def buildAccel (s : Scene) : AccelState := (build emptyAccel s).1

/-- Modelled from the spec: the 3D cross product (part of the math
contract of spec section 4.1; its source is not under `src/`). -/
def cross (a b : Vec3) : Vec3 :=
  ⟨a.y * b.z - a.z * b.y, a.z * b.x - a.x * b.z, a.x * b.y - a.y * b.x⟩

/-- Modelled from the spec: the precomputed-triangle ray test
(`TriAccelTriangle::Intersect`; `triaccel.h` is not under `src/`)
without the parametric window.  Solves `o + t*d = p1 + u*e1 + v*e2` by
Cramer's rule; a zero determinant (degenerate triangle or parallel ray)
reports no hit, as the spec requires; the test is two-sided.  Returns
`(t, u, v)` when the barycentric constraints `u ≥ 0`, `v ≥ 0`,
`u + v ≤ 1` hold. -/
def triHit (p1 p2 p3 : Vec3) (r : Ray) : Option (ℚ × ℚ × ℚ) :=
  let e1 := vec3subNone p2 p1
  let e2 := vec3subNone p3 p1
  let pv := cross r.d e2
  let det := dotNone3 e1 pv
  if det = 0 then none
  else
    let tv := vec3subNone r.o p1
    let u := dotNone3 tv pv / det
    let qv := cross tv e1
    let v := dotNone3 r.d qv / det
    let t := dotNone3 e2 qv / det
    if 0 ≤ u ∧ 0 ≤ v ∧ u + v ≤ 1 then some (t, u, v) else none

/-- Modelled from the spec: the windowed triangle test as called from the
leaf loop (`accel_bvh.cpp` line 182): a hit is reported only when its
parameter lies in the caller-supplied `[minT, maxT]` range. -/
def triIntersect (p1 p2 p3 : Vec3) (r : Ray) (minT maxT : ℚ) :
    Option (ℚ × ℚ × ℚ) :=
  match triHit p1 p2 p3 r with
  | some (t, u, v) =>
    if minT ≤ t ∧ t ≤ maxT then some (t, u, v) else none
  | none => none

/-- Traversal state captured by reference in `Intersect_`
(`accel_bvh.cpp` lines 159-162): the shrinking window top `maxT` and the
recorded best hit `minIndex`/`minB` (absent until the first accepted
hit). -/
structure TravState where
  maxT : ℚ
  best : Option (ℕ × ℚ × ℚ)
deriving DecidableEq

/-- Read of `nodes_.at(idx)`; every traversal read is in range for a
well-formed tree, out-of-range is modelled by a default leaf. -/
def nodeAt (nodes : List BVHNode) (i : ℕ) : BVHNode :=
  nodes.getD i ⟨true, boundDefault, 0, 0⟩

/-- Read of `triangles_[i]`; in-range for a well-formed tree. -/
def triAt (tris : List TriAccelTriangle) (i : ℕ) : TriAccelTriangle :=
  tris.getD i ⟨0, 0, ⟨0, 0, 0⟩, ⟨0, 0, 0⟩, ⟨0, 0, 0⟩⟩

/-- One iteration of the leaf loop (`accel_bvh.cpp` lines 178-189): test
triangle `i` against the current window; on a hit set the flag, shrink
`maxT` to `t` and record `(i, b)`. -/
def leafStep (tris : List TriAccelTriangle) (r : Ray) (minT : ℚ)
    (s : Bool × TravState) (i : ℕ) : Bool × TravState :=
  let tri := triAt tris i
  match triIntersect tri.p1 tri.p2 tri.p3 r minT s.2.maxT with
  | some (t, u, v) => (true, ⟨t, some (i, u, v)⟩)
  | none => s

/-- The leaf loop over the index range `[b, e)` with local flag `hit`
initialized to `false` (`accel_bvh.cpp` lines 177-190). -/
def leafLoop (tris : List TriAccelTriangle) (r : Ray) (minT : ℚ)
    (b e : ℕ) (s0 : TravState) : Bool × TravState :=
  (List.range' b (e - b)).foldl (leafStep tris r minT) (false, s0)

/-- The recursive lambda `Intersect_` of `accel_bvh.cpp` (lines 164-198):
prune when the ray misses the node's bound under the current window;
at a leaf run the leaf loop; at an internal node visit both children and
propagate whether either produced a hit.  The recursion is expressed
with fuel; children always carry a larger node index than their parent
in the built tree, so fuel `nodes.length` suffices from the root. -/
def travNode (nodes : List BVHNode) (tris : List TriAccelTriangle)
    (r : Ray) (minT : ℚ) : ℕ → ℕ → TravState → Bool × TravState
  | 0, _, s => (false, s)
  | fuel + 1, idx, s =>
    let node := nodeAt nodes idx
    if boundIntersect node.bound r minT s.maxT then
      if node.isleaf then
        leafLoop tris r minT node.a node.b s
      else
        let r1 := travNode nodes tris r minT fuel node.a s
        let r2 := travNode nodes tris r minT fuel node.b r1.2
        (r1.1 || r2.1, r2.2)
    else
      (false, s)

/-- Observable result of a successful query: everything
`Accel_BVH::Intersect` passes to `CreateTriangleIntersection` plus the
identifiers of the winning triangle (`accel_bvh.cpp` lines 200-211).
`intersectionutils.h` is not under `src/`; the record keeps the raw
inputs of the reconstruction, which determine it. -/
structure HitRecord where
  minIndex : ℕ
  t : ℚ
  b1 : ℚ
  b2 : ℚ
  primIndex : ℕ
  faceIndex : ℕ
  pos : Vec3
  prim : Primitive
deriving DecidableEq

/-- The `Intersect` operation (`accel_bvh.cpp` lines 159-212): run
`Intersect_(0)` from the root with window `[minT, maxT]`; on failure
report no hit, on success build the hit record from the recorded
`minIndex`, `minB` and the final (shrunk) `maxT`. -/
def intersect (acc : AccelState) (s : Scene) (r : Ray)
    (minT maxT : ℚ) : Option HitRecord :=
  let res := travNode acc.nodes acc.triangles r minT
    acc.nodes.length 0 ⟨maxT, none⟩
  if res.1 then
    match res.2.best with
    | some (i, u, v) =>
      let tri := triAt acc.triangles i
      some
        { minIndex := i
          t := res.2.maxT
          b1 := u
          b2 := v
          primIndex := tri.primIndex
          faceIndex := tri.faceIndex
          pos := vec3addNone r.o (vec3scaleNone r.d res.2.maxT)
          prim := primAt s tri.primIndex }
    | none => none
  else
    none

/-- Point on a ray at parameter `t`: `ray.o + ray.d * t`
(`accel_bvh.cpp` line 207). -/
def rayPoint (r : Ray) (t : ℚ) : Vec3 :=
  vec3addNone r.o (vec3scaleNone r.d t)

/-- Invariant of the traversal state relative to the initial window top
`m0`: the window only shrinks, it shrinks only when a hit is recorded,
and a recorded best is a genuine in-range triangle whose unwindowed hit
parameter is exactly the current window top and at least `minT`. -/
def validBest (tris : List TriAccelTriangle) (r : Ray) (minT m0 : ℚ)
    (s : TravState) : Prop :=
  s.maxT ≤ m0 ∧
  (s.best = none → s.maxT = m0) ∧
  (∀ i u v, s.best = some (i, u, v) →
    i < tris.length ∧
    triHit (triAt tris i).p1 (triAt tris i).p2 (triAt tris i).p3 r =
      some (s.maxT, u, v) ∧
    minT ≤ s.maxT)

/-- Structural description of the tree produced by `Build_`: node `idx`
of `nodes` is the root of a subtree over the triangle index range
`[lo, hi)`, its stored bound is the union of `bs` over that range, both
children of an internal node carry strictly larger node indices, and
their ranges split the parent range at some midpoint. -/
inductive Covers (bs : List Bound) (nodes : List BVHNode) :
    ℕ → ℕ → ℕ → Prop
  | leaf (idx lo hi : ℕ) :
      idx < nodes.length →
      nodeAt nodes idx = ⟨true, rangeUnion bs lo hi, lo, hi⟩ →
      lo ≤ hi →
      Covers bs nodes idx lo hi
  | internal (idx lo mid hi c1 c2 : ℕ) :
      idx < nodes.length →
      nodeAt nodes idx = ⟨false, rangeUnion bs lo hi, c1, c2⟩ →
      idx < c1 → idx < c2 →
      lo ≤ mid → mid ≤ hi →
      Covers bs nodes c1 lo mid →
      Covers bs nodes c2 mid hi →
      Covers bs nodes idx lo hi

/-- Containment order on extended vectors: `a` is componentwise at most
`b`. -/
def evLE (a b : EVec3) : Prop := a.x ≤ b.x ∧ a.y ≤ b.y ∧ a.z ≤ b.z

instance (a b : EVec3) : Decidable (evLE a b) := by
  unfold evLE
  infer_instance

/-- Box containment: `outer` encloses `inner` on every axis. -/
def boundContains (outer inner : Bound) : Prop :=
  evLE outer.min inner.min ∧ evLE inner.max outer.max

instance (a b : Bound) : Decidable (boundContains a b) := by
  unfold boundContains
  infer_instance

/-- Membership of a finite point in a box. -/
def pointInBound (p : Vec3) (bnd : Bound) : Prop :=
  (bnd.min.x ≤ qEF p.x ∧ qEF p.x ≤ bnd.max.x) ∧
  (bnd.min.y ≤ qEF p.y ∧ qEF p.y ≤ bnd.max.y) ∧
  (bnd.min.z ≤ qEF p.z ∧ qEF p.z ≤ bnd.max.z)

/-- Consistency of a mesh in the sense of the spec's error taxonomy:
every face vertex index addresses a full position triple. -/
def meshConsistent (m : TriangleMesh) : Bool :=
  m.faces.all (fun f => 3 * f + 2 < m.positions.length)

/-- Consistency of a scene: every present mesh is consistent. -/
def sceneConsistent (s : Scene) : Bool :=
  s.all (fun p => (p.mesh.map meshConsistent).getD true)

/-- Componentwise minimum of three vertices; the spec's words for the
pre-epsilon triangle bound (minimal corner). -/
def vtxMin (p1 p2 p3 : Vec3) : Vec3 :=
  ⟨min (min p1.x p2.x) p3.x, min (min p1.y p2.y) p3.y,
   min (min p1.z p2.z) p3.z⟩

/-- Componentwise maximum of three vertices; the spec's words for the
pre-epsilon triangle bound (maximal corner). -/
def vtxMax (p1 p2 p3 : Vec3) : Vec3 :=
  ⟨max (max p1.x p2.x) p3.x, max (max p1.y p2.y) p3.y,
   max (max p1.z p2.z) p3.z⟩

/-- The outward-facing part of a hit record: exactly the data from which
`CreateTriangleIntersection` reconstructs the surface geometry handed to
the caller (the primitive itself, the hit position, the barycentric
coordinates and the face index); the internal triangle-array index and
the primitive's position in the scene list are not part of it. -/
def hitObservable (hr : HitRecord) : Primitive × Vec3 × ℚ × ℚ × ℕ :=
  (hr.prim, hr.pos, hr.b1, hr.b2, hr.faceIndex)

/-- Resolve a triangle's primitive index against its scene: the face
index, the three world-space vertices, and the owning primitive itself
(the data the renderer observes; the numeric primitive index is the
accelerator's internal back-reference). -/
def annotTri (s : Scene) (t : TriAccelTriangle) :
    ℕ × Vec3 × Vec3 × Vec3 × Primitive :=
  (t.faceIndex, t.p1, t.p2, t.p3, primAt s t.primIndex)

/-- Index-free description of the triangles a scene contributes: per
primitive with a present mesh, one entry per face carrying the face
index, the world-space vertices and the primitive itself. -/
def annotList (s : Scene) : List (ℕ × Vec3 × Vec3 × Vec3 × Primitive) :=
  (s.map (fun p =>
    match p.mesh with
    | none => []
    | some m =>
      (List.range (numFaces m)).map (fun j =>
        (j, worldVertex p.transform m (faceAt m (3 * j)),
         worldVertex p.transform m (faceAt m (3 * j + 1)),
         worldVertex p.transform m (faceAt m (3 * j + 2)), p)))).flatten

/-- The triangle list contributed by the primitives of `s` when they
occupy scene slots `n, n+1, ...`; `sceneTriangles` is the case
`n = 0`. -/
def sceneTrianglesFrom (n : ℕ) (s : Scene) : List TriAccelTriangle :=
  ((List.enumFrom n s).map (fun q => primTriangles q.1 q.2)).flatten

/-- Inconsistent one-primitive scene: the single face references vertex
indices 1 and 2, but the position array holds only one triple. -/
def badScene : Scene := [⟨some ⟨[0, 0, 0], [0, 1, 2]⟩, mat4Identity⟩]

/-- Consistent one-triangle scene: the triangle
`(0,0,0), (1,0,0), (0,1,0)` under the identity transform. -/
def oneTriScene : Scene :=
  [⟨some ⟨[0, 0, 0, 1, 0, 0, 0, 1, 0], [0, 1, 2]⟩, mat4Identity⟩]

/-- Two-triangle scene: a triangle in the plane `z = 2` inserted first
and a triangle in the plane `z = 1` inserted second, both crossed by
rays along `+z`. -/
def twoTriScene : Scene :=
  [⟨some ⟨[0, 0, 2, 4, 0, 2, 0, 4, 2, 0, 0, 1, 4, 0, 1, 0, 4, 1],
          [0, 1, 2, 3, 4, 5]⟩, mat4Identity⟩]

/-- Ray from `(1,1,0)` along `+z`: hits both triangles of
`twoTriScene`, at `t = 2` and `t = 1`. -/
def zRay : Ray := ⟨⟨1, 1, 0⟩, ⟨0, 0, 1⟩⟩

/-- Concrete unit box used as an evaluation input. -/
def cubeBound : Bound := ⟨⟨qEF 0, qEF 0, qEF 0⟩, ⟨qEF 1, qEF 1, qEF 1⟩⟩

/-- Scene holding a single primitive with an absent mesh handle; it
contributes zero triangles. -/
def nullScene : Scene := [⟨none, mat4Identity⟩]

theorem qEF_le_qEF {a b : ℚ} : qEF a ≤ qEF b ↔ a ≤ b := by
  unfold qEF
  rw [WithBot.coe_le_coe, WithTop.coe_le_coe]

theorem qEF_min (a b : ℚ) : qEF (min a b) = min (qEF a) (qEF b) := by
  unfold qEF
  rw [WithTop.coe_min, WithBot.coe_min]

theorem qEF_max (a b : ℚ) : qEF (max a b) = max (qEF a) (qEF b) := by
  unfold qEF
  rw [WithTop.coe_max, WithBot.coe_max]

theorem efMap_qEF (f : ℚ → ℚ) (q : ℚ) : efMap f (qEF q) = qEF (f q) := rfl

theorem min_top_l (a : EF) : min ⊤ a = a := min_eq_right le_top

theorem max_bot_l (a : EF) : max ⊥ a = a := max_eq_right bot_le

theorem union_comm (a b : Bound) : Union a b = Union b a := by
  simp only [Union, evMin, evMax, min_comm, max_comm]

theorem union_assoc (a b c : Bound) :
    Union (Union a b) c = Union a (Union b c) := by
  simp only [Union, evMin, evMax, min_assoc, max_assoc]

theorem union_empty_l (a : Bound) : Union boundDefault a = a := by
  simp only [Union, boundDefault, evMin, evMax, min_top_l, max_bot_l]

theorem union_empty_r (a : Bound) : Union a boundDefault = a := by
  rw [union_comm]
  exact union_empty_l a

theorem unionPt_eq_union_degenerate (a : Bound) (p : Vec3) :
    UnionPt a p = Union a ⟨evOfVec3 p, evOfVec3 p⟩ := rfl

theorem foldl_union_acc (l : List Bound) (a : Bound) :
    l.foldl Union a = Union a (l.foldl Union boundDefault) := by
  induction l generalizing a with
  | nil => simp [union_empty_r]
  | cons x l ih =>
    simp only [List.foldl_cons]
    rw [ih (Union a x), ih (Union boundDefault x), union_empty_l,
      union_assoc]

theorem foldl_union_cons (x : Bound) (l : List Bound) :
    (x :: l).foldl Union boundDefault =
      Union x (l.foldl Union boundDefault) := by
  simp only [List.foldl_cons, union_empty_l]
  exact foldl_union_acc l x

theorem foldl_union_perm {l l' : List Bound} (h : l.Perm l') :
    l.foldl Union boundDefault = l'.foldl Union boundDefault := by
  induction h with
  | nil => rfl
  | cons x _ ih => rw [foldl_union_cons, foldl_union_cons, ih]
  | swap x y l =>
    rw [foldl_union_cons, foldl_union_cons, foldl_union_cons,
      foldl_union_cons, ← union_assoc, ← union_assoc, union_comm x y]
  | trans _ _ ih1 ih2 => exact ih1.trans ih2

theorem foldr_union_eq_foldl (l : List Bound) :
    l.foldr Union boundDefault = l.foldl Union boundDefault := by
  induction l with
  | nil => rfl
  | cons x l ih => rw [List.foldr_cons, foldl_union_cons, ih]

theorem evLE_trans {a b c : EVec3} (h1 : evLE a b) (h2 : evLE b c) :
    evLE a c :=
  ⟨h1.1.trans h2.1, ⟨h1.2.1.trans h2.2.1, h1.2.2.trans h2.2.2⟩⟩

theorem boundContains_trans {a b c : Bound} (h1 : boundContains a b)
    (h2 : boundContains b c) : boundContains a c :=
  ⟨evLE_trans h1.1 h2.1, evLE_trans h2.2 h1.2⟩

theorem boundContains_union_l (a b : Bound) :
    boundContains (Union a b) a :=
  ⟨⟨min_le_left _ _, min_le_left _ _, min_le_left _ _⟩,
   ⟨le_max_left _ _, le_max_left _ _, le_max_left _ _⟩⟩

theorem boundContains_union_r (a b : Bound) :
    boundContains (Union a b) b :=
  ⟨⟨min_le_right _ _, min_le_right _ _, min_le_right _ _⟩,
   ⟨le_max_right _ _, le_max_right _ _, le_max_right _ _⟩⟩

theorem boundContains_union_lub {c a b : Bound}
    (ha : boundContains c a) (hb : boundContains c b) :
    boundContains c (Union a b) :=
  ⟨⟨le_min ha.1.1 hb.1.1, le_min ha.1.2.1 hb.1.2.1,
    le_min ha.1.2.2 hb.1.2.2⟩,
   ⟨max_le ha.2.1 hb.2.1, max_le ha.2.2.1 hb.2.2.1,
    max_le ha.2.2.2 hb.2.2.2⟩⟩

theorem boundContains_default (c : Bound) :
    boundContains c boundDefault :=
  ⟨⟨le_top, le_top, le_top⟩, ⟨bot_le, bot_le, bot_le⟩⟩

theorem foldl_union_contains (l : List Bound) :
    ∀ x ∈ l, boundContains (l.foldl Union boundDefault) x := by
  induction l with
  | nil => intro x hx; cases hx
  | cons y l ih =>
    intro x hx
    rw [foldl_union_cons]
    rcases List.mem_cons.mp hx with rfl | hx
    · exact boundContains_union_l _ _
    · exact boundContains_trans (boundContains_union_r _ _) (ih x hx)

theorem foldl_union_minimal (l : List Bound) (c : Bound)
    (h : ∀ x ∈ l, boundContains c x) :
    boundContains c (l.foldl Union boundDefault) := by
  induction l with
  | nil => exact boundContains_default c
  | cons y l ih =>
    rw [foldl_union_cons]
    exact boundContains_union_lub (h y (by simp))
      (ih fun x hx => h x (List.mem_cons_of_mem y hx))

theorem rangeUnion_eq_foldl (bs : List Bound) (b e : ℕ) :
    rangeUnion bs b e =
      ((List.range' b (e - b)).map (boundAt bs)).foldl Union
        boundDefault := by
  rw [rangeUnion, List.foldl_map]

theorem rangeUnion_contains (bs : List Bound) (b e j : ℕ)
    (h1 : b ≤ j) (h2 : j < e) :
    boundContains (rangeUnion bs b e) (boundAt bs j) := by
  rw [rangeUnion_eq_foldl]
  refine foldl_union_contains _ _ (List.mem_map.mpr ⟨j, ?_, rfl⟩)
  rw [List.mem_range'_1]
  exact ⟨h1, by omega⟩

theorem triBoundPre_eq (p1 p2 p3 : Vec3) :
    triBoundPre p1 p2 p3 =
      ⟨evOfVec3 (vtxMin p1 p2 p3), evOfVec3 (vtxMax p1 p2 p3)⟩ := by
  simp only [triBoundPre, UnionPt, evMin, evMax, boundDefault, evOfVec3,
    min_top_l, max_bot_l, vtxMin, vtxMax, qEF_min, qEF_max]

theorem triBound_eq (p1 p2 p3 : Vec3) :
    triBound p1 p2 p3 =
      ⟨evOfVec3 (vec3subNone (vtxMin p1 p2 p3) ⟨mathEps, mathEps, mathEps⟩),
       evOfVec3 (vec3addNone (vtxMax p1 p2 p3) ⟨mathEps, mathEps, mathEps⟩)⟩ := by
  rw [triBound, triBoundPre_eq]
  simp only [evMap, evOfVec3, efMap_qEF, vec3subNone, vec3addNone]

theorem sceneBounds_at (s : Scene) (k : ℕ)
    (h : k < (sceneTriangles s).length) :
    boundAt (sceneBounds s) k =
      triBound (triAt (sceneTriangles s) k).p1
        (triAt (sceneTriangles s) k).p2 (triAt (sceneTriangles s) k).p3 := by
  unfold boundAt sceneBounds triAt
  rw [List.getD_eq_getElem?_getD, List.getElem?_map,
    List.getElem?_eq_getElem h]
  simp [List.getD_eq_getElem?_getD, List.getElem?_eq_getElem h]

/-- C8: `Union` on bounds is commutative and associative, `Union` with a
point equals `Union` with the degenerate box at that point, the
default-constructed empty bound is a two-sided identity, and folding
`Union` over any non-empty finite list of boxes, in any order (any
permutation, `foldl` or `foldr`), yields the minimal enclosing box:
it contains every element and is contained in every common enclosure. -/
theorem c8_union_fold_minimal_enclosing :
    (∀ a b, Union a b = Union b a) ∧
    (∀ a b c, Union (Union a b) c = Union a (Union b c)) ∧
    (∀ a, Union boundDefault a = a ∧ Union a boundDefault = a) ∧
    (∀ a p, UnionPt a p = Union a ⟨evOfVec3 p, evOfVec3 p⟩) ∧
    (∀ l l' : List Bound, l ≠ [] → l.Perm l' →
      l'.foldl Union boundDefault = l.foldl Union boundDefault ∧
      l.foldr Union boundDefault = l.foldl Union boundDefault ∧
      (∀ x ∈ l, boundContains (l.foldl Union boundDefault) x) ∧
      (∀ c, (∀ x ∈ l, boundContains c x) →
        boundContains c (l.foldl Union boundDefault))) := by
  refine ⟨union_comm, union_assoc,
    fun a => ⟨union_empty_l a, union_empty_r a⟩,
    unionPt_eq_union_degenerate, fun l l' _ hperm => ?_⟩
  exact ⟨(foldl_union_perm hperm).symm, foldr_union_eq_foldl l,
    foldl_union_contains l, foldl_union_minimal l⟩

/-- Witness for C8 at the concrete one-element list holding the unit
box. -/
theorem c8_witness :
    ([cubeBound] : List Bound) ≠ [] ∧
    boundContains ([cubeBound].foldl Union boundDefault) cubeBound ∧
    [cubeBound].foldr Union boundDefault =
      [cubeBound].foldl Union boundDefault := by
  have h := (c8_union_fold_minimal_enclosing.2.2.2.2 [cubeBound]
    [cubeBound] (by simp) (List.Perm.refl _))
  exact ⟨by simp, h.2.2.1 cubeBound (by simp), h.2.1⟩

/-- C5: for every triangle appended during `Build`, the bound before
epsilon expansion is exactly the componentwise min/max box of its three
world-space vertices, and the stored bound is that box moved outward by
the fixed epsilon on each axis in both directions; every entry of the
`bounds_` vector is the stored bound of the triangle at the same
index. -/
theorem c5_triangle_bound_exact :
    (∀ p1 p2 p3 : Vec3,
      triBoundPre p1 p2 p3 =
        ⟨evOfVec3 (vtxMin p1 p2 p3), evOfVec3 (vtxMax p1 p2 p3)⟩ ∧
      triBound p1 p2 p3 =
        ⟨evOfVec3 (vec3subNone (vtxMin p1 p2 p3)
            ⟨mathEps, mathEps, mathEps⟩),
         evOfVec3 (vec3addNone (vtxMax p1 p2 p3)
            ⟨mathEps, mathEps, mathEps⟩)⟩) ∧
    (∀ (s : Scene) (k : ℕ), k < (sceneTriangles s).length →
      boundAt (sceneBounds s) k =
        triBound (triAt (sceneTriangles s) k).p1
          (triAt (sceneTriangles s) k).p2
          (triAt (sceneTriangles s) k).p3) :=
  ⟨fun p1 p2 p3 => ⟨triBoundPre_eq p1 p2 p3, triBound_eq p1 p2 p3⟩,
   sceneBounds_at⟩

/-- Witness for C5 at the one-triangle scene, triangle index 0. -/
theorem c5_witness :
    0 < (sceneTriangles oneTriScene).length ∧
    boundAt (sceneBounds oneTriScene) 0 =
      triBound (triAt (sceneTriangles oneTriScene) 0).p1
        (triAt (sceneTriangles oneTriScene) 0).p2
        (triAt (sceneTriangles oneTriScene) 0).p3 :=
  ⟨by decide, c5_triangle_bound_exact.2 oneTriScene 0 (by decide)⟩

/-- C9: every SIMD specialization (SSE and AVX) of vector addition,
subtraction, multiplication, division, dot product, squared length and
length computes, on the observable components, the same value as the
scalar per-component implementation; in the exact-arithmetic model the
choice of implementation is not observable. -/
theorem c9_simd_scalar_interchangeable :
    (∀ a b : Vec3S,
      vec3Sread (vec3addS a b) = vec3addNone (vec3Sread a) (vec3Sread b)) ∧
    (∀ a b : Vec3S,
      vec3Sread (vec3subS a b) = vec3subNone (vec3Sread a) (vec3Sread b)) ∧
    (∀ a b : Vec3S,
      vec3Sread (vec3mulS a b) = vec3mulNone (vec3Sread a) (vec3Sread b)) ∧
    (∀ a b : Vec3S,
      vec3Sread (vec3divS a b) = vec3divNone (vec3Sread a) (vec3Sread b)) ∧
    (∀ a b : Vec4S,
      vec4Sread (vec4addS a b) = vec4addNone (vec4Sread a) (vec4Sread b)) ∧
    (∀ a b : Vec4S,
      vec4Sread (vec4subS a b) = vec4subNone (vec4Sread a) (vec4Sread b)) ∧
    (∀ a b : Vec4S,
      vec4Sread (vec4mulS a b) = vec4mulNone (vec4Sread a) (vec4Sread b)) ∧
    (∀ a b : Vec4S,
      vec4Sread (vec4divS a b) = vec4divNone (vec4Sread a) (vec4Sread b)) ∧
    (∀ a b : Vec3S, dotSSE3 a b = dotNone3 (vec3Sread a) (vec3Sread b)) ∧
    (∀ a b : Vec3S, dotAVX3 a b = dotNone3 (vec3Sread a) (vec3Sread b)) ∧
    (∀ a b : Vec4S, dotSSE4 a b = dotNone4 (vec4Sread a) (vec4Sread b)) ∧
    (∀ a b : Vec4S, dotAVX4 a b = dotNone4 (vec4Sread a) (vec4Sread b)) ∧
    (∀ a : Vec3S, length2SSE3 a = length2None3 (vec3Sread a)) ∧
    (∀ a : Vec4S, length2SSE4 a = length2None4 (vec4Sread a)) ∧
    (∀ (sq : ℚ → ℚ) (a : Vec3S),
      lengthSSE3 sq a = lengthNone3 sq (vec3Sread a)) ∧
    (∀ (sq : ℚ → ℚ) (a : Vec4S),
      lengthSSE4 sq a = lengthNone4 sq (vec4Sread a)) := by
  refine ⟨fun a b => rfl, fun a b => rfl, fun a b => rfl, fun a b => rfl,
    fun a b => rfl, fun a b => rfl, fun a b => rfl, fun a b => rfl,
    fun a b => rfl, fun a b => ?_, fun a b => rfl, fun a b => ?_,
    fun a => rfl, fun a => rfl, fun sq a => rfl, fun sq a => rfl⟩
  · simp only [dotAVX3, dotNone3, mmBlend8, mmZero, mmMul, mmHadd,
      mmExtractHi, mmCastLo, mmAdd2, vec3Sread]
    ring
  · simp only [dotAVX4, dotNone4, mmMul, mmHadd, mmExtractHi, mmCastLo,
      mmAdd2, vec4Sread]
    ring

/-- C10: evaluation of the claim at the code.  `TMat3::Identity()`
(`math.h` line 449, `MatT{1,0,0, 0,1,0, 0,1,0}`) is not the
multiplicative identity: applied to `(0,0,1)` it yields `(0,1,0)`.
The matrix the initializer plainly intended (third column `0,0,1`,
matching the correct `TMat4::Identity()`) is a two-sided identity. -/
theorem c10_mat3_identity_evaluation :
    mat3mulVec mat3IdentityCode ⟨0, 0, 1⟩ = ⟨0, 1, 0⟩ ∧
    mat3mulVec mat3IdentityCode ⟨0, 0, 1⟩ ≠ (⟨0, 0, 1⟩ : Vec3) ∧
    mat3IdentityCode ≠ mat3IdentityTrue ∧
    (∀ v : Vec3, mat3mulVec mat3IdentityTrue v = v) ∧
    (∀ m : Mat3, mat3mulMat mat3IdentityTrue m = m ∧
      mat3mulMat m mat3IdentityTrue = m) := by
  refine ⟨by norm_num [mat3mulVec, mat3IdentityCode],
    by norm_num [mat3mulVec, mat3IdentityCode],
    by norm_num [mat3IdentityCode, mat3IdentityTrue],
    fun v => ?_, fun m => ?_⟩
  · obtain ⟨x, y, z⟩ := v
    simp [mat3mulVec, mat3IdentityTrue]
  · obtain ⟨⟨a, b, c⟩, ⟨d, e, f⟩, ⟨g, h, i⟩⟩ := m
    constructor <;> simp [mat3mulMat, mat3mulVec, mat3IdentityTrue]

/-- C1 counterexample: the claim asserts `Build` returns `false` on a
scene with an out-of-range face vertex index; on the concrete
inconsistent scene `badScene` the code returns `true` (it performs no
consistency check at all). -/
theorem c1_counterexample :
    sceneConsistent badScene = false ∧
    (build emptyAccel badScene).2 = true :=
  ⟨by decide, rfl⟩

/-- C1 amended: `Build` returns `true` on every scene and every prior
accelerator state; malformed mesh data is not detected and not reported
(the out-of-range vertex reads proceed unchecked). -/
theorem c1_amended_build_always_succeeds :
    ∀ (st : AccelState) (s : Scene), (build st s).2 = true :=
  fun _ _ => rfl

theorem nodeAt_append {nodes : List BVHNode} (ext : List BVHNode)
    {k : ℕ} (h : k < nodes.length) :
    nodeAt (nodes ++ ext) k = nodeAt nodes k := by
  unfold nodeAt
  rw [List.getD_eq_getElem?_getD, List.getD_eq_getElem?_getD,
    List.getElem?_append_left h]

theorem nodeAt_concat_self (nodes : List BVHNode) (x : BVHNode) :
    nodeAt (nodes ++ [x]) nodes.length = x := by
  unfold nodeAt
  rw [List.getD_eq_getElem?_getD, List.getElem?_concat_length]
  rfl

theorem nodeAt_set_self {nodes : List BVHNode} {i : ℕ} (x : BVHNode)
    (h : i < nodes.length) :
    nodeAt (nodes.set i x) i = x := by
  unfold nodeAt
  rw [List.getD_eq_getElem?_getD, List.getElem?_set_self',
    List.getElem?_eq_getElem h]
  rfl

theorem nodeAt_set_ne {nodes : List BVHNode} {i k : ℕ} (x : BVHNode)
    (h : i ≠ k) :
    nodeAt (nodes.set i x) k = nodeAt nodes k := by
  unfold nodeAt
  rw [List.getD_eq_getElem?_getD, List.getD_eq_getElem?_getD,
    List.getElem?_set_ne h]

theorem covers_mono {bs : List Bound} {nodes nodes' : List BVHNode}
    {idx lo hi : ℕ} (h : Covers bs nodes idx lo hi)
    (hlen : nodes.length ≤ nodes'.length)
    (hagree : ∀ k, idx ≤ k → k < nodes.length →
      nodeAt nodes' k = nodeAt nodes k) :
    Covers bs nodes' idx lo hi := by
  revert hagree
  induction h with
  | leaf idx lo hi h1 h2 h3 =>
    intro hagree
    exact Covers.leaf idx lo hi (lt_of_lt_of_le h1 hlen)
      ((hagree idx le_rfl h1).trans h2) h3
  | internal idx lo mid hi c1 c2 h1 h2 hc1 hc2 hm1 hm2 _ _ ih1 ih2 =>
    intro hagree
    refine Covers.internal idx lo mid hi c1 c2 (lt_of_lt_of_le h1 hlen)
      ((hagree idx le_rfl h1).trans h2) hc1 hc2 hm1 hm2 (ih1 ?_) (ih2 ?_)
    · exact fun k hk1 hk2 =>
        hagree k (le_of_lt (lt_of_lt_of_le hc1 hk1)) hk2
    · exact fun k hk1 hk2 =>
        hagree k (le_of_lt (lt_of_lt_of_le hc2 hk1)) hk2

theorem buildNodes_leaf (bs : List Bound) (b e : ℕ)
    (nodes : List BVHNode) (h : e - b < 10) :
    buildNodes bs b e nodes =
      (nodes ++ [⟨true, rangeUnion bs b e, b, e⟩], nodes.length) := by
  rw [buildNodes]
  simp [h]

theorem buildNodes_internal (bs : List Bound) (b e : ℕ)
    (nodes : List BVHNode) (h : ¬ e - b < 10) :
    buildNodes bs b e nodes =
      ((buildNodes bs (b + (e - b) / 2) e
          (buildNodes bs b (b + (e - b) / 2)
            (nodes ++ [⟨false, rangeUnion bs b e, 0, 0⟩])).1).1.set
         nodes.length
         ⟨false, rangeUnion bs b e,
          (buildNodes bs b (b + (e - b) / 2)
            (nodes ++ [⟨false, rangeUnion bs b e, 0, 0⟩])).2,
          (buildNodes bs (b + (e - b) / 2) e
            (buildNodes bs b (b + (e - b) / 2)
              (nodes ++ [⟨false, rangeUnion bs b e, 0, 0⟩])).1).2⟩,
       nodes.length) := by
  rw [buildNodes]
  simp [h]

theorem buildNodes_spec (bs : List Bound) (n : ℕ) :
    ∀ (b e : ℕ) (nodes : List BVHNode), e - b ≤ n → b ≤ e →
      nodes.length < (buildNodes bs b e nodes).1.length ∧
      (∀ k, k < nodes.length →
        nodeAt (buildNodes bs b e nodes).1 k = nodeAt nodes k) ∧
      (buildNodes bs b e nodes).2 = nodes.length ∧
      Covers bs (buildNodes bs b e nodes).1 nodes.length b e ∧
      (∀ k, nodes.length ≤ k → k < (buildNodes bs b e nodes).1.length →
        ∃ lo hi, Covers bs (buildNodes bs b e nodes).1 k lo hi) := by
  induction n using Nat.strong_induction_on with
  | _ n ih =>
  intro b e nodes hn hbe
  by_cases h : e - b < 10
  · rw [buildNodes_leaf bs b e nodes h]
    refine ⟨by simp, fun k hk => nodeAt_append _ hk, rfl, ?_, ?_⟩
    · exact Covers.leaf _ _ _ (by simp) (nodeAt_concat_self _ _) hbe
    · intro k hk1 hk2
      simp only [List.length_append, List.length_cons,
        List.length_nil] at hk2
      have hk : k = nodes.length := by omega
      subst hk
      exact ⟨b, e, Covers.leaf _ _ _ (by simp)
        (nodeAt_concat_self _ _) hbe⟩
  · have h10 : 10 ≤ e - b := by omega
    set mid := b + (e - b) / 2 with hmid
    set nodes1 := nodes ++ [(⟨false, rangeUnion bs b e, 0, 0⟩ : BVHNode)]
      with hnodes1
    have hmb : mid - b < n := by omega
    have hem : e - mid < n := by omega
    have hn0 : 0 < n := by omega
    obtain ⟨l1len, l1pre, l1idx, l1cov, l1all⟩ :=
      ih (mid - b) hmb b mid nodes1 le_rfl (by omega)
    set R1 := buildNodes bs b mid nodes1 with hR1
    obtain ⟨l2len, l2pre, l2idx, l2cov, l2all⟩ :=
      ih (e - mid) hem mid e R1.1 le_rfl (by omega)
    set R2 := buildNodes bs mid e R1.1 with hR2
    have hlen1 : nodes.length + 1 = nodes1.length := by
      simp [hnodes1]
    have hidxlt2 : nodes.length < R2.1.length := by omega
    set final := R2.1.set nodes.length
      (⟨false, rangeUnion bs b e, R1.2, R2.2⟩ : BVHNode) with hfinal
    have heq : buildNodes bs b e nodes = (final, nodes.length) := by
      rw [buildNodes_internal bs b e nodes h, ← hmid, ← hnodes1, ← hR1,
        ← hR2, ← hfinal]
    have hflen : final.length = R2.1.length := by
      rw [hfinal]
      simp
    have hag2 : ∀ k, nodes.length < k → k < R2.1.length →
        nodeAt final k = nodeAt R2.1 k := by
      intro k hk1 _
      rw [hfinal]
      exact nodeAt_set_ne _ (by omega)
    have hroot : Covers bs final nodes.length b e := by
      have hcov1' : Covers bs R2.1 nodes1.length b mid :=
        covers_mono l1cov (by omega) (fun k hk1 hk2 => l2pre k hk2)
      have hcov1'' : Covers bs final nodes1.length b mid :=
        covers_mono hcov1' (by omega)
          (fun k hk1 hk2 => hag2 k (by omega) hk2)
      have hcov2'' : Covers bs final R1.1.length mid e :=
        covers_mono l2cov (by omega)
          (fun k hk1 hk2 => hag2 k (by omega) hk2)
      refine Covers.internal nodes.length b mid e nodes1.length
        R1.1.length (by omega)
        (by rw [hfinal, nodeAt_set_self _ hidxlt2, l1idx, l2idx])
        (by omega) (by omega) (by omega) (by omega) ?_ ?_
      · rw [← l1idx] at hcov1''
        rw [← l1idx]
        exact hcov1''
      · rw [← l2idx] at hcov2''
        rw [← l2idx]
        exact hcov2''
    rw [heq]
    dsimp only
    refine ⟨by omega, ?_, rfl, hroot, ?_⟩
    · intro k hk
      show nodeAt final k = nodeAt nodes k
      rw [hfinal, nodeAt_set_ne _ (by omega), l2pre k (by omega),
        l1pre k (by omega), hnodes1, nodeAt_append _ hk]
    · -- every node index of the result is covered by some range
      intro k hk1 hk2
      rw [hflen] at hk2
      rcases Nat.lt_or_ge k nodes1.length with hk | hk
      · have hkeq : k = nodes.length := by omega
        subst hkeq
        exact ⟨b, e, hroot⟩
      · rcases Nat.lt_or_ge k R1.1.length with hk' | hk'
        · obtain ⟨lo, hi, hcov⟩ := l1all k hk hk'
          refine ⟨lo, hi, ?_⟩
          exact covers_mono (covers_mono hcov (by omega)
            (fun k' hk1' hk2' => l2pre k' hk2')) (by omega)
            (fun k' hk1' hk2' => hag2 k' (by omega) hk2')
        · obtain ⟨lo, hi, hcov⟩ := l2all k hk' hk2
          exact ⟨lo, hi, covers_mono hcov (by omega)
            (fun k' hk1' hk2' => hag2 k' (by omega) hk2')⟩

theorem buildAccel_triangles (s : Scene) :
    (buildAccel s).triangles = sceneTriangles s := rfl

theorem buildAccel_nodes (s : Scene) :
    (buildAccel s).nodes =
      (buildNodes (sceneBounds s) 0 (sceneTriangles s).length []).1 := rfl

theorem buildAccel_covers (s : Scene) :
    0 < (buildAccel s).nodes.length ∧
    Covers (sceneBounds s) (buildAccel s).nodes 0 0
      (sceneTriangles s).length ∧
    (∀ k, k < (buildAccel s).nodes.length →
      ∃ lo hi, Covers (sceneBounds s) (buildAccel s).nodes k lo hi) := by
  obtain ⟨h1, _, _, h4, h5⟩ := buildNodes_spec (sceneBounds s)
    (sceneTriangles s).length 0 (sceneTriangles s).length []
    (by omega) (by omega)
  rw [buildAccel_nodes]
  exact ⟨by simpa using h1, by simpa using h4,
    fun k hk => h5 k (by simp) hk⟩

theorem covers_bound_contains {bs : List Bound} {nodes : List BVHNode}
    {idx lo hi : ℕ} (h : Covers bs nodes idx lo hi) :
    ∀ j, lo ≤ j → j < hi →
      boundContains (nodeAt nodes idx).bound (boundAt bs j) := by
  intro j h1 h2
  cases h with
  | leaf _ _ _ _ heq _ =>
    rw [heq]
    exact rangeUnion_contains bs lo hi j h1 h2
  | internal _ _ mid _ c1 c2 _ heq _ _ _ _ _ _ =>
    rw [heq]
    exact rangeUnion_contains bs lo hi j h1 h2

/-- C4: after `Build`, every node of the tree is the root of a subtree
over some triangle index range, and its stored bound contains the
(epsilon-expanded) bound of every triangle in that range — hence every
triangle bound reachable in its subtree, since child ranges partition
the parent range. -/
theorem c4_node_bound_contains_subtree (s : Scene) :
    (∀ idx, idx < (buildAccel s).nodes.length →
      ∃ lo hi, Covers (sceneBounds s) (buildAccel s).nodes idx lo hi) ∧
    (∀ idx lo hi,
      Covers (sceneBounds s) (buildAccel s).nodes idx lo hi →
      ∀ j, lo ≤ j → j < hi →
        boundContains (nodeAt (buildAccel s).nodes idx).bound
          (boundAt (sceneBounds s) j)) :=
  ⟨(buildAccel_covers s).2.2, fun _ _ _ h => covers_bound_contains h⟩

/-- Witness for C4 at the one-triangle scene: the root node's bound
contains the single triangle's bound. -/
theorem c4_witness :
    0 < (buildAccel oneTriScene).nodes.length ∧
    boundContains (nodeAt (buildAccel oneTriScene).nodes 0).bound
      (boundAt (sceneBounds oneTriScene) 0) := by
  have h1 : (sceneTriangles oneTriScene).length = 1 := by decide
  have hnodes : (buildAccel oneTriScene).nodes =
      [⟨true, rangeUnion (sceneBounds oneTriScene) 0 1, 0, 1⟩] := by
    rw [buildAccel_nodes, h1, buildNodes_leaf _ _ _ _ (by omega)]
    rfl
  have hcov : Covers (sceneBounds oneTriScene)
      (buildAccel oneTriScene).nodes 0 0 1 := by
    refine Covers.leaf 0 0 1 ?_ ?_ (by omega)
    · rw [hnodes]
      simp
    · rw [hnodes]
      rfl
  exact ⟨by rw [hnodes]; simp,
    (c4_node_bound_contains_subtree oneTriScene).2 0 0 1 hcov 0
      (by omega) (by omega)⟩

theorem travNode_leaf_empty (nodes : List BVHNode)
    (tris : List TriAccelTriangle) (r : Ray) (minT : ℚ) (fuel idx : ℕ)
    (s : TravState) (hleaf : (nodeAt nodes idx).isleaf = true)
    (hab : (nodeAt nodes idx).b ≤ (nodeAt nodes idx).a) :
    travNode nodes tris r minT (fuel + 1) idx s = (false, s) := by
  rw [travNode]
  simp only [hleaf, eq_self_iff_true, if_true]
  split
  · rw [leafLoop]
    have h0 : (nodeAt nodes idx).b - (nodeAt nodes idx).a = 0 := by
      omega
    rw [h0]
    rfl
  · rfl

/-- C6: building over a scene contributing zero triangles produces
exactly one node — a leaf over the empty index range `[0, 0)` with the
default (empty) bound — and every subsequent `Intersect` call, for every
ray and every window, reports no hit. -/
theorem c6_zero_triangles_no_hit (s : Scene)
    (h : sceneTriangles s = []) :
    (buildAccel s).nodes = [⟨true, boundDefault, 0, 0⟩] ∧
    ∀ (r : Ray) (minT maxT : ℚ),
      intersect (buildAccel s) s r minT maxT = none := by
  have hnodes : (buildAccel s).nodes = [⟨true, boundDefault, 0, 0⟩] := by
    rw [buildAccel_nodes, h, List.length_nil,
      buildNodes_leaf _ _ _ _ (by omega)]
    rfl
  refine ⟨hnodes, fun r minT maxT => ?_⟩
  have hlen : (buildAccel s).nodes.length = 0 + 1 := by
    rw [hnodes]
    rfl
  have hres : travNode (buildAccel s).nodes (buildAccel s).triangles r
      minT (buildAccel s).nodes.length 0 ⟨maxT, none⟩ =
      (false, ⟨maxT, none⟩) := by
    rw [hlen]
    refine travNode_leaf_empty _ _ _ _ _ _ _ ?_ ?_ <;> rw [hnodes] <;> rfl
  simp [intersect, hres]

/-- Witness for C6 at the scene holding only a mesh-less primitive. -/
theorem c6_witness :
    sceneTriangles nullScene = [] ∧
    (buildAccel nullScene).nodes = [⟨true, boundDefault, 0, 0⟩] ∧
    intersect (buildAccel nullScene) nullScene zRay 0 100 = none := by
  have h : sceneTriangles nullScene = [] := rfl
  obtain ⟨h1, h2⟩ := c6_zero_triangles_no_hit nullScene h
  exact ⟨h, h1, h2 zRay 0 100⟩

/-- C2: evaluation of the code at the failing input.  A second `Build`
on the unchanged one-triangle scene keeps the stale triangle
(`triangles_` grows from 1 to 2 entries, since line 149 clears only
`nodes_`), while the freshly computed `bounds_` vector has only 1 entry;
the root leaf then spans `[0, 2)`, indexing `bounds_` past its end. -/
theorem c2_second_build_keeps_stale_triangles :
    (buildAccel oneTriScene).triangles.length = 1 ∧
    (build (buildAccel oneTriScene) oneTriScene).1.triangles.length = 2 ∧
    (sceneBounds oneTriScene).length = 1 ∧
    (nodeAt (build (buildAccel oneTriScene) oneTriScene).1.nodes 0).b
      = 2 := by
  refine ⟨by decide, by decide, by decide, ?_⟩
  have h2 : ((buildAccel oneTriScene).triangles ++
      sceneTriangles oneTriScene).length = 2 := by decide
  show (nodeAt (buildNodes (sceneBounds oneTriScene) 0
    ((buildAccel oneTriScene).triangles ++
      sceneTriangles oneTriScene).length []).1 0).b = 2
  rw [h2, buildNodes_leaf _ _ _ _ (by omega)]
  rfl

theorem qEF_ne_top (q : ℚ) : qEF q ≠ ⊤ := by
  unfold qEF
  intro h
  rw [← WithBot.coe_top, WithBot.coe_inj] at h
  exact WithTop.coe_ne_top h

theorem qEF_ne_bot (q : ℚ) : qEF q ≠ ⊥ := WithBot.coe_ne_bot

theorem top_not_le_qEF (q : ℚ) : ¬ (⊤ : EF) ≤ qEF q :=
  fun h => qEF_ne_top q (top_le_iff.mp h)

theorem qEF_not_le_bot (q : ℚ) : ¬ qEF q ≤ (⊥ : EF) :=
  fun h => qEF_ne_bot q (le_bot_iff.mp h)

theorem slabCoord_bot (o d : ℚ) :
    slabCoord ⊥ o d = if 0 < d then (⊥ : EF) else ⊤ := rfl

theorem slabCoord_top (o d : ℚ) :
    slabCoord ⊤ o d = if 0 < d then (⊤ : EF) else ⊥ := rfl

theorem slabCoord_qEF (q o d : ℚ) :
    slabCoord (qEF q) o d = qEF ((q - o) / d) := rfl

theorem slabCoord_le_pos {c : EF} {o d t : ℚ} (hd : 0 < d)
    (h : c ≤ qEF (o + d * t)) : slabCoord c o d ≤ qEF t := by
  induction c using WithBot.recBotCoe with
  | bot => rw [slabCoord_bot, if_pos hd]; exact bot_le
  | coe a =>
    induction a using WithTop.recTopCoe with
    | top => exact absurd h (top_not_le_qEF _)
    | coe q =>
      rw [show ((q : WithTop ℚ) : EF) = qEF q from rfl] at h ⊢
      rw [qEF_le_qEF] at h
      rw [slabCoord_qEF, qEF_le_qEF, div_le_iff₀ hd, mul_comm]
      linarith

theorem le_slabCoord_pos {c : EF} {o d t : ℚ} (hd : 0 < d)
    (h : qEF (o + d * t) ≤ c) : qEF t ≤ slabCoord c o d := by
  induction c using WithBot.recBotCoe with
  | bot => exact absurd h (qEF_not_le_bot _)
  | coe a =>
    induction a using WithTop.recTopCoe with
    | top =>
      show qEF t ≤ if 0 < d then (⊤ : EF) else (⊥ : EF)
      rw [if_pos hd]
      exact le_top
    | coe q =>
      rw [show ((q : WithTop ℚ) : EF) = qEF q from rfl] at h ⊢
      rw [qEF_le_qEF] at h
      rw [slabCoord_qEF, qEF_le_qEF, le_div_iff₀ hd, mul_comm]
      linarith

theorem slabCoord_le_neg {c : EF} {o d t : ℚ} (hd : d < 0)
    (h : qEF (o + d * t) ≤ c) : slabCoord c o d ≤ qEF t := by
  induction c using WithBot.recBotCoe with
  | bot => exact absurd h (qEF_not_le_bot _)
  | coe a =>
    induction a using WithTop.recTopCoe with
    | top =>
      show (if 0 < d then (⊤ : EF) else (⊥ : EF)) ≤ qEF t
      rw [if_neg (not_lt.mpr hd.le)]
      exact bot_le
    | coe q =>
      rw [show ((q : WithTop ℚ) : EF) = qEF q from rfl] at h ⊢
      rw [qEF_le_qEF] at h
      rw [slabCoord_qEF, qEF_le_qEF, div_le_iff_of_neg hd, mul_comm]
      linarith

theorem le_slabCoord_neg {c : EF} {o d t : ℚ} (hd : d < 0)
    (h : c ≤ qEF (o + d * t)) : qEF t ≤ slabCoord c o d := by
  induction c using WithBot.recBotCoe with
  | bot =>
    show qEF t ≤ if 0 < d then (⊥ : EF) else (⊤ : EF)
    rw [if_neg (not_lt.mpr hd.le)]
    exact le_top
  | coe a =>
    induction a using WithTop.recTopCoe with
    | top => exact absurd h (top_not_le_qEF _)
    | coe q =>
      rw [show ((q : WithTop ℚ) : EF) = qEF q from rfl] at h ⊢
      rw [qEF_le_qEF] at h
      rw [slabCoord_qEF, qEF_le_qEF, le_div_iff_of_neg hd, mul_comm]
      linarith

theorem slabAxis_sound {bmin bmax : EF} {o d t : ℚ} {lo hi : EF}
    (h1 : bmin ≤ qEF (o + d * t)) (h2 : qEF (o + d * t) ≤ bmax)
    (hlo : lo ≤ qEF t) (hhi : qEF t ≤ hi) :
    ∃ lo' hi',
      slabAxis bmin bmax o d (some (lo, hi)) = some (lo', hi') ∧
      lo' ≤ qEF t ∧ qEF t ≤ hi' := by
  by_cases hd : d = 0
  · subst hd
    have ho : o + 0 * t = o := by ring
    rw [ho] at h1 h2
    refine ⟨lo, hi, ?_, hlo, hhi⟩
    simp [slabAxis, h1, h2]
  · refine ⟨max lo (min (slabCoord bmin o d) (slabCoord bmax o d)),
      min hi (max (slabCoord bmin o d) (slabCoord bmax o d)), ?_, ?_, ?_⟩
    · simp [slabAxis, hd]
    · rcases lt_or_gt_of_ne hd with hneg | hpos
      · exact max_le hlo (le_trans (min_le_right _ _)
          (slabCoord_le_neg hneg h2))
      · exact max_le hlo (le_trans (min_le_left _ _)
          (slabCoord_le_pos hpos h1))
    · rcases lt_or_gt_of_ne hd with hneg | hpos
      · exact le_min hhi (le_trans (le_slabCoord_neg hneg h1)
          (le_max_left _ _))
      · exact le_min hhi (le_trans (le_slabCoord_pos hpos h2)
          (le_max_right _ _))

theorem boundIntersect_sound {bnd : Bound} {r : Ray} {lo hi t : ℚ}
    (hlo : lo ≤ t) (hhi : t ≤ hi)
    (hpt : pointInBound (rayPoint r t) bnd) :
    boundIntersect bnd r lo hi = true := by
  obtain ⟨⟨hx1, hx2⟩, ⟨hy1, hy2⟩, ⟨hz1, hz2⟩⟩ := hpt
  have hpx : (rayPoint r t).x = r.o.x + r.d.x * t := rfl
  have hpy : (rayPoint r t).y = r.o.y + r.d.y * t := rfl
  have hpz : (rayPoint r t).z = r.o.z + r.d.z * t := rfl
  rw [hpx] at hx1 hx2
  rw [hpy] at hy1 hy2
  rw [hpz] at hz1 hz2
  obtain ⟨lo1, hi1, he1, hl1, hh1⟩ := slabAxis_sound hx1 hx2
    (qEF_le_qEF.mpr hlo) (qEF_le_qEF.mpr hhi)
  obtain ⟨lo2, hi2, he2, hl2, hh2⟩ := slabAxis_sound hy1 hy2 hl1 hh1
  obtain ⟨lo3, hi3, he3, hl3, hh3⟩ := slabAxis_sound hz1 hz2 hl2 hh2
  unfold boundIntersect
  simp only [he1, he2, he3, decide_eq_true_eq]
  exact hl3.trans hh3

theorem triHit_elim {p1 p2 p3 : Vec3} {r : Ray} {t u v : ℚ}
    (h : triHit p1 p2 p3 r = some (t, u, v)) :
    0 ≤ u ∧ 0 ≤ v ∧ u + v ≤ 1 ∧
    r.o.x + r.d.x * t = p1.x + u * (p2.x - p1.x) + v * (p3.x - p1.x) ∧
    r.o.y + r.d.y * t = p1.y + u * (p2.y - p1.y) + v * (p3.y - p1.y) ∧
    r.o.z + r.d.z * t = p1.z + u * (p2.z - p1.z) + v * (p3.z - p1.z) := by
  unfold triHit at h
  simp only [] at h
  split at h
  · exact absurd h (by simp)
  case isFalse hdet =>
    split at h
    case isFalse => exact absurd h (by simp)
    case isTrue hcond =>
      simp only [Option.some.injEq, Prod.mk.injEq] at h
      obtain ⟨ht, hu, hv⟩ := h
      subst ht
      subst hu
      subst hv
      obtain ⟨h1, h2, h3⟩ := hcond
      refine ⟨h1, h2, h3, ?_, ?_, ?_⟩ <;>
      · simp only [dotNone3, cross, vec3subNone] at hdet ⊢
        field_simp
        ring

theorem convex3_le {a b c u v : ℚ} (hu : 0 ≤ u) (hv : 0 ≤ v)
    (huv : u + v ≤ 1) :
    min (min a b) c ≤ a + u * (b - a) + v * (c - a) ∧
    a + u * (b - a) + v * (c - a) ≤ max (max a b) c := by
  have h1 : min (min a b) c ≤ a :=
    le_trans (min_le_left _ _) (min_le_left _ _)
  have h2 : min (min a b) c ≤ b :=
    le_trans (min_le_left _ _) (min_le_right _ _)
  have h3 : min (min a b) c ≤ c := min_le_right _ _
  have h4 : a ≤ max (max a b) c :=
    le_trans (le_max_left _ _) (le_max_left _ _)
  have h5 : b ≤ max (max a b) c :=
    le_trans (le_max_right _ _) (le_max_left _ _)
  have h6 : c ≤ max (max a b) c := le_max_right _ _
  constructor
  · nlinarith [mul_nonneg hu (sub_nonneg.mpr h2),
      mul_nonneg hv (sub_nonneg.mpr h3),
      mul_nonneg (sub_nonneg.mpr huv) (sub_nonneg.mpr h1)]
  · nlinarith [mul_nonneg hu (sub_nonneg.mpr h5),
      mul_nonneg hv (sub_nonneg.mpr h6),
      mul_nonneg (sub_nonneg.mpr huv) (sub_nonneg.mpr h4)]

theorem mathEps_pos : (0 : ℚ) < mathEps := by norm_num [mathEps]

theorem triHit_point_in_triBound {p1 p2 p3 : Vec3} {r : Ray}
    {t u v : ℚ} (h : triHit p1 p2 p3 r = some (t, u, v)) :
    pointInBound (rayPoint r t) (triBound p1 p2 p3) := by
  obtain ⟨hu, hv, huv, hx, hy, hz⟩ := triHit_elim h
  have he := mathEps_pos
  rw [triBound_eq]
  have hpx : (rayPoint r t).x = r.o.x + r.d.x * t := rfl
  have hpy : (rayPoint r t).y = r.o.y + r.d.y * t := rfl
  have hpz : (rayPoint r t).z = r.o.z + r.d.z * t := rfl
  obtain ⟨hcx1, hcx2⟩ :=
    convex3_le (a := p1.x) (b := p2.x) (c := p3.x) hu hv huv
  obtain ⟨hcy1, hcy2⟩ :=
    convex3_le (a := p1.y) (b := p2.y) (c := p3.y) hu hv huv
  obtain ⟨hcz1, hcz2⟩ :=
    convex3_le (a := p1.z) (b := p2.z) (c := p3.z) hu hv huv
  refine ⟨⟨?_, ?_⟩, ⟨?_, ?_⟩, ⟨?_, ?_⟩⟩ <;>
    dsimp only [evOfVec3, vec3subNone, vec3addNone, vtxMin, vtxMax] <;>
    rw [qEF_le_qEF] <;>
    simp only [hpx, hpy, hpz, hx, hy, hz] <;>
    linarith

theorem pointInBound_mono {p : Vec3} {b1 b2 : Bound}
    (hc : boundContains b1 b2) (hp : pointInBound p b2) :
    pointInBound p b1 :=
  ⟨⟨hc.1.1.trans hp.1.1, hp.1.2.trans hc.2.1⟩,
   ⟨hc.1.2.1.trans hp.2.1.1, hp.2.1.2.trans hc.2.2.1⟩,
   ⟨hc.1.2.2.trans hp.2.2.1, hp.2.2.2.trans hc.2.2.2⟩⟩

theorem triIntersect_some {p1 p2 p3 : Vec3} {r : Ray}
    {minT maxT t u v : ℚ}
    (h : triIntersect p1 p2 p3 r minT maxT = some (t, u, v)) :
    triHit p1 p2 p3 r = some (t, u, v) ∧ minT ≤ t ∧ t ≤ maxT := by
  unfold triIntersect at h
  split at h
  next t' u' v' heq =>
    split at h
    next hw =>
      simp only [Option.some.injEq, Prod.mk.injEq] at h
      obtain ⟨ht, hu, hv⟩ := h
      subst ht
      subst hu
      subst hv
      exact ⟨heq, hw.1, hw.2⟩
    next => exact absurd h (by simp)
  next => exact absurd h (by simp)

theorem triIntersect_of_hit {p1 p2 p3 : Vec3} {r : Ray}
    {minT maxT t u v : ℚ} (hh : triHit p1 p2 p3 r = some (t, u, v))
    (h1 : minT ≤ t) (h2 : t ≤ maxT) :
    triIntersect p1 p2 p3 r minT maxT = some (t, u, v) := by
  unfold triIntersect
  rw [hh]
  show (if minT ≤ t ∧ t ≤ maxT then some (t, u, v) else none) =
    some (t, u, v)
  rw [if_pos ⟨h1, h2⟩]

theorem leafStep_eq_of_hit {tris : List TriAccelTriangle} {r : Ray}
    {minT : ℚ} {hs : Bool × TravState} {i : ℕ} {t u v : ℚ}
    (heq : triIntersect (triAt tris i).p1 (triAt tris i).p2
      (triAt tris i).p3 r minT hs.2.maxT = some (t, u, v)) :
    leafStep tris r minT hs i = (true, ⟨t, some (i, u, v)⟩) := by
  unfold leafStep
  simp only []
  rw [heq]

theorem leafStep_eq_of_miss {tris : List TriAccelTriangle} {r : Ray}
    {minT : ℚ} {hs : Bool × TravState} {i : ℕ}
    (heq : triIntersect (triAt tris i).p1 (triAt tris i).p2
      (triAt tris i).p3 r minT hs.2.maxT = none) :
    leafStep tris r minT hs i = hs := by
  unfold leafStep
  simp only []
  rw [heq]

theorem leafStep_maxT (tris : List TriAccelTriangle) (r : Ray)
    (minT : ℚ) (hs : Bool × TravState) (i : ℕ) :
    (leafStep tris r minT hs i).2.maxT ≤ hs.2.maxT := by
  cases heq : triIntersect (triAt tris i).p1 (triAt tris i).p2
      (triAt tris i).p3 r minT hs.2.maxT with
  | none => rw [leafStep_eq_of_miss heq]
  | some tuv =>
    obtain ⟨t, u, v⟩ := tuv
    rw [leafStep_eq_of_hit heq]
    exact (triIntersect_some heq).2.2

theorem leafStep_flag {tris : List TriAccelTriangle} {r : Ray}
    {minT : ℚ} {hs : Bool × TravState} {i : ℕ} (hf : hs.1 = true) :
    (leafStep tris r minT hs i).1 = true := by
  cases heq : triIntersect (triAt tris i).p1 (triAt tris i).p2
      (triAt tris i).p3 r minT hs.2.maxT with
  | none => rw [leafStep_eq_of_miss heq]; exact hf
  | some tuv =>
    obtain ⟨t, u, v⟩ := tuv
    rw [leafStep_eq_of_hit heq]

theorem leafFold_maxT (tris : List TriAccelTriangle) (r : Ray)
    (minT : ℚ) (l : List ℕ) :
    ∀ hs : Bool × TravState,
      ((l.foldl (leafStep tris r minT) hs).2).maxT ≤ hs.2.maxT := by
  induction l with
  | nil => intro hs; exact le_rfl
  | cons x l ih =>
    intro hs
    exact le_trans (ih (leafStep tris r minT hs x))
      (leafStep_maxT tris r minT hs x)

theorem leafFold_flag (tris : List TriAccelTriangle) (r : Ray)
    (minT : ℚ) (l : List ℕ) :
    ∀ hs : Bool × TravState, hs.1 = true →
      (l.foldl (leafStep tris r minT) hs).1 = true := by
  induction l with
  | nil => intro hs hf; exact hf
  | cons x l ih => intro hs hf; exact ih _ (leafStep_flag hf)

theorem leafFold_false (tris : List TriAccelTriangle) (r : Ray)
    (minT : ℚ) (l : List ℕ) :
    ∀ hs : Bool × TravState,
      (l.foldl (leafStep tris r minT) hs).1 = false →
      (l.foldl (leafStep tris r minT) hs) = hs ∧
      ∀ i ∈ l, triIntersect (triAt tris i).p1 (triAt tris i).p2
        (triAt tris i).p3 r minT hs.2.maxT = none := by
  induction l with
  | nil => intro hs _; exact ⟨rfl, by simp⟩
  | cons x l ih =>
    intro hs hf
    rw [List.foldl_cons] at hf
    cases heq : triIntersect (triAt tris x).p1 (triAt tris x).p2
        (triAt tris x).p3 r minT hs.2.maxT with
    | some tuv =>
      obtain ⟨t, u, v⟩ := tuv
      rw [leafStep_eq_of_hit heq] at hf
      have hflag := leafFold_flag tris r minT l
        (true, ⟨t, some (x, u, v)⟩) rfl
      rw [hflag] at hf
      simp at hf
    | none =>
      rw [List.foldl_cons, leafStep_eq_of_miss heq]
      rw [leafStep_eq_of_miss heq] at hf
      obtain ⟨he, hm⟩ := ih hs hf
      refine ⟨he, ?_⟩
      intro i hi
      rcases List.mem_cons.mp hi with rfl | hi'
      · exact heq
      · exact hm i hi'

theorem leafFold_ub (tris : List TriAccelTriangle) (r : Ray)
    (minT : ℚ) (l : List ℕ) :
    ∀ (hs : Bool × TravState) (j : ℕ), j ∈ l → ∀ t u v : ℚ,
      triHit (triAt tris j).p1 (triAt tris j).p2 (triAt tris j).p3 r =
        some (t, u, v) →
      minT ≤ t →
      ((l.foldl (leafStep tris r minT) hs).2).maxT ≤ t := by
  induction l with
  | nil => intro hs j hj; cases hj
  | cons x l ih =>
    intro hs j hj t u v hhit ht
    rw [List.foldl_cons]
    rcases List.mem_cons.mp hj with rfl | hj'
    · by_cases hw : t ≤ hs.2.maxT
      · have heq := triIntersect_of_hit hhit ht hw
        rw [leafStep_eq_of_hit heq]
        exact leafFold_maxT tris r minT l _
      · have h1 := leafFold_maxT tris r minT l
          (leafStep tris r minT hs j)
        have h2 := leafStep_maxT tris r minT hs j
        have hw' : hs.2.maxT ≤ t := le_of_lt (not_le.mp hw)
        exact le_trans h1 (le_trans h2 hw')
    · exact ih _ j hj' t u v hhit ht

theorem leafStep_valid {tris : List TriAccelTriangle} {r : Ray}
    {minT m0 : ℚ} {hs : Bool × TravState} {i : ℕ}
    (hi : i < tris.length) (hv : validBest tris r minT m0 hs.2) :
    validBest tris r minT m0 (leafStep tris r minT hs i).2 := by
  cases heq : triIntersect (triAt tris i).p1 (triAt tris i).p2
      (triAt tris i).p3 r minT hs.2.maxT with
  | none => rw [leafStep_eq_of_miss heq]; exact hv
  | some tuv =>
    obtain ⟨t, u, v⟩ := tuv
    obtain ⟨hhit, h1, h2⟩ := triIntersect_some heq
    rw [leafStep_eq_of_hit heq]
    refine ⟨le_trans h2 hv.1, by simp, ?_⟩
    intro i' u' v' hbest
    simp only [Option.some.injEq, Prod.mk.injEq] at hbest
    obtain ⟨hi', hu', hv'⟩ := hbest
    subst hi'
    subst hu'
    subst hv'
    exact ⟨hi, hhit, h1⟩

theorem leafFold_valid (tris : List TriAccelTriangle) (r : Ray)
    (minT m0 : ℚ) (l : List ℕ) :
    ∀ hs : Bool × TravState, (∀ i ∈ l, i < tris.length) →
      validBest tris r minT m0 hs.2 →
      validBest tris r minT m0
        ((l.foldl (leafStep tris r minT) hs).2) := by
  induction l with
  | nil => intro hs _ hv; exact hv
  | cons x l ih =>
    intro hs hl hv
    rw [List.foldl_cons]
    exact ih _ (fun i hi => hl i (List.mem_cons_of_mem x hi))
      (leafStep_valid (hl x (by simp)) hv)

theorem leafFold_inv_best (tris : List TriAccelTriangle) (r : Ray)
    (minT : ℚ) (l : List ℕ) :
    ∀ hs : Bool × TravState,
      (hs.1 = true → hs.2.best.isSome) →
      ((l.foldl (leafStep tris r minT) hs).1 = true →
        ((l.foldl (leafStep tris r minT) hs).2).best.isSome) := by
  induction l with
  | nil => intro hs h; exact h
  | cons x l ih =>
    intro hs h
    rw [List.foldl_cons]
    refine ih _ ?_
    cases heq : triIntersect (triAt tris x).p1 (triAt tris x).p2
        (triAt tris x).p3 r minT hs.2.maxT with
    | none => rw [leafStep_eq_of_miss heq]; exact h
    | some tuv =>
      obtain ⟨t, u, v⟩ := tuv
      rw [leafStep_eq_of_hit heq]
      intro _
      rfl

theorem travNode_succ (nodes : List BVHNode)
    (tris : List TriAccelTriangle) (r : Ray) (minT : ℚ)
    (fuel idx : ℕ) (s : TravState) :
    travNode nodes tris r minT (fuel + 1) idx s =
      if boundIntersect (nodeAt nodes idx).bound r minT s.maxT then
        if (nodeAt nodes idx).isleaf then
          leafLoop tris r minT (nodeAt nodes idx).a (nodeAt nodes idx).b
            s
        else
          ((travNode nodes tris r minT fuel (nodeAt nodes idx).a s).1 ||
            (travNode nodes tris r minT fuel (nodeAt nodes idx).b
              (travNode nodes tris r minT fuel (nodeAt nodes idx).a
                s).2).1,
           (travNode nodes tris r minT fuel (nodeAt nodes idx).b
             (travNode nodes tris r minT fuel (nodeAt nodes idx).a
               s).2).2)
      else (false, s) := by
  rw [travNode]

theorem travNode_maxT (nodes : List BVHNode)
    (tris : List TriAccelTriangle) (r : Ray) (minT : ℚ) :
    ∀ (fuel idx : ℕ) (s : TravState),
      ((travNode nodes tris r minT fuel idx s).2).maxT ≤ s.maxT := by
  intro fuel
  induction fuel with
  | zero => intro idx s; exact le_rfl
  | succ fuel ih =>
    intro idx s
    rw [travNode_succ]
    split
    · split
      · exact leafFold_maxT tris r minT _ (false, s)
      · exact le_trans (ih _ _) (ih _ _)
    · exact le_rfl

theorem travNode_false (nodes : List BVHNode)
    (tris : List TriAccelTriangle) (r : Ray) (minT : ℚ) :
    ∀ (fuel idx : ℕ) (s : TravState),
      (travNode nodes tris r minT fuel idx s).1 = false →
      (travNode nodes tris r minT fuel idx s).2 = s := by
  intro fuel
  induction fuel with
  | zero => intro idx s _; rfl
  | succ fuel ih =>
    intro idx s
    rw [travNode_succ]
    split
    · split
      · intro hf
        have := (leafFold_false tris r minT _ (false, s) hf).1
        rw [leafLoop] at *
        rw [this]
      · intro hf
        dsimp only at hf ⊢
        rw [Bool.or_eq_false_iff] at hf
        rw [ih _ _ hf.2, ih _ _ hf.1]
    · intro _; rfl

theorem travNode_inv_best (nodes : List BVHNode)
    (tris : List TriAccelTriangle) (r : Ray) (minT : ℚ) :
    ∀ (fuel idx : ℕ) (s : TravState),
      (travNode nodes tris r minT fuel idx s).1 = true →
      ((travNode nodes tris r minT fuel idx s).2).best.isSome := by
  intro fuel
  induction fuel with
  | zero => intro idx s hf; exact absurd hf (by simp [travNode])
  | succ fuel ih =>
    intro idx s
    rw [travNode_succ]
    split
    · split
      · intro hf
        exact leafFold_inv_best tris r minT _ (false, s)
          (by intro h; exact absurd h (by simp)) hf
      · intro hf
        dsimp only at hf ⊢
        rcases Bool.or_eq_true_iff.mp hf with h1 | h2
        · cases hf2 : (travNode nodes tris r minT fuel
              (nodeAt nodes idx).b
              (travNode nodes tris r minT fuel (nodeAt nodes idx).a
                s).2).1 with
          | true => exact ih _ _ hf2
          | false =>
            rw [travNode_false nodes tris r minT fuel _ _ hf2]
            exact ih _ _ h1
        · exact ih _ _ h2
    · intro hf; exact absurd hf (by simp)

theorem covers_idx_lt {bs : List Bound} {nodes : List BVHNode}
    {idx lo hi : ℕ} (h : Covers bs nodes idx lo hi) :
    idx < nodes.length := by
  cases h with
  | leaf _ _ _ h1 _ _ => exact h1
  | internal _ _ _ _ _ _ h1 _ _ _ _ _ _ _ => exact h1

theorem travNode_valid {bs : List Bound} {nodes : List BVHNode}
    {tris : List TriAccelTriangle} {r : Ray} {minT m0 : ℚ} :
    ∀ (fuel idx lo hi : ℕ) (s : TravState),
      Covers bs nodes idx lo hi → hi ≤ tris.length →
      validBest tris r minT m0 s →
      validBest tris r minT m0
        ((travNode nodes tris r minT fuel idx s).2) := by
  intro fuel
  induction fuel with
  | zero => intro idx lo hi s _ _ hv; exact hv
  | succ fuel ih =>
    intro idx lo hi s hcov hhi hv
    rw [travNode_succ]
    split
    · cases hcov with
      | leaf _ _ _ h1 h2 h3 =>
        rw [h2]
        dsimp only
        refine leafFold_valid tris r minT m0 _ (false, s) ?_ hv
        intro i hi'
        rw [List.mem_range'_1] at hi'
        omega
      | internal _ _ mid _ c1 c2 h1 h2 hc1 hc2 hm1 hm2 hcov1 hcov2 =>
        rw [h2]
        dsimp only
        exact ih c2 mid hi _ hcov2 hhi
          (ih c1 lo mid s hcov1 (by omega) hv)
    · exact hv

theorem travNode_ub {bs : List Bound} {nodes : List BVHNode}
    {tris : List TriAccelTriangle} {r : Ray} {minT : ℚ}
    (hg : ∀ j, j < tris.length → boundAt bs j =
      triBound (triAt tris j).p1 (triAt tris j).p2 (triAt tris j).p3) :
    ∀ (fuel idx lo hi : ℕ) (s : TravState) (j : ℕ) (t u v : ℚ),
      Covers bs nodes idx lo hi → nodes.length - idx ≤ fuel →
      hi ≤ tris.length → lo ≤ j → j < hi →
      triHit (triAt tris j).p1 (triAt tris j).p2 (triAt tris j).p3 r =
        some (t, u, v) →
      minT ≤ t →
      ((travNode nodes tris r minT fuel idx s).2).maxT ≤ t := by
  intro fuel
  induction fuel with
  | zero =>
    intro idx lo hi s j t u v hcov hfuel _ _ _ _ _
    have := covers_idx_lt hcov
    omega
  | succ fuel ih =>
    intro idx lo hi s j t u v hcov hfuel hhi hj1 hj2 hhit ht
    rw [travNode_succ]
    split
    case isTrue hbi =>
      cases hcov with
      | leaf _ _ _ h1 h2 h3 =>
        rw [h2]
        dsimp only
        refine leafFold_ub tris r minT _ (false, s) j ?_ t u v hhit ht
        rw [List.mem_range'_1]
        omega
      | internal _ _ mid _ c1 c2 h1 h2 hc1 hc2 hm1 hm2 hcov1 hcov2 =>
        rw [h2]
        dsimp only
        rcases Nat.lt_or_ge j mid with hjm | hjm
        · have hr1 := ih c1 lo mid s j t u v hcov1
            (by have := covers_idx_lt hcov1; omega) (by omega)
            hj1 hjm hhit ht
          exact le_trans (travNode_maxT nodes tris r minT fuel c2 _)
            hr1
        · exact ih c2 mid hi _ j t u v hcov2
            (by have := covers_idx_lt hcov2; omega) hhi hjm hj2 hhit ht
    case isFalse hbi =>
      dsimp only
      by_contra hcon
      have ht2 : t ≤ s.maxT := le_of_lt (not_le.mp hcon)
      have hjN : j < tris.length := lt_of_lt_of_le hj2 hhi
      have hpt := triHit_point_in_triBound hhit
      rw [← hg j hjN] at hpt
      have hcont := covers_bound_contains hcov j hj1 hj2
      have hpt2 := pointInBound_mono hcont hpt
      exact hbi (boundIntersect_sound ht ht2 hpt2)

theorem travNode_complete {bs : List Bound} {nodes : List BVHNode}
    {tris : List TriAccelTriangle} {r : Ray} {minT : ℚ}
    (hg : ∀ j, j < tris.length → boundAt bs j =
      triBound (triAt tris j).p1 (triAt tris j).p2 (triAt tris j).p3) :
    ∀ (fuel idx lo hi : ℕ) (s : TravState) (j : ℕ) (t u v : ℚ),
      Covers bs nodes idx lo hi → nodes.length - idx ≤ fuel →
      hi ≤ tris.length → lo ≤ j → j < hi →
      triHit (triAt tris j).p1 (triAt tris j).p2 (triAt tris j).p3 r =
        some (t, u, v) →
      minT ≤ t → t ≤ s.maxT →
      (travNode nodes tris r minT fuel idx s).1 = true := by
  intro fuel
  induction fuel with
  | zero =>
    intro idx lo hi s j t u v hcov hfuel _ _ _ _ _ _
    have := covers_idx_lt hcov
    omega
  | succ fuel ih =>
    intro idx lo hi s j t u v hcov hfuel hhi hj1 hj2 hhit ht ht2
    have hbi : boundIntersect (nodeAt nodes idx).bound r minT s.maxT
        = true := by
      have hjN : j < tris.length := lt_of_lt_of_le hj2 hhi
      have hpt := triHit_point_in_triBound hhit
      rw [← hg j hjN] at hpt
      exact boundIntersect_sound ht ht2
        (pointInBound_mono (covers_bound_contains hcov j hj1 hj2) hpt)
    rw [travNode_succ, if_pos hbi]
    cases hcov with
    | leaf _ _ _ h1 h2 h3 =>
      rw [h2]
      dsimp only
      rw [if_pos rfl]
      cases hres : (leafLoop tris r minT lo hi s).1 with
      | true => rfl
      | false =>
        exfalso
        rw [leafLoop] at hres
        have hmiss := (leafFold_false tris r minT _ (false, s) hres).2
        have hj : j ∈ List.range' lo (hi - lo) := by
          rw [List.mem_range'_1]
          omega
        have := hmiss j hj
        rw [triIntersect_of_hit hhit ht ht2] at this
        cases this
    | internal _ _ mid _ c1 c2 h1 h2 hc1 hc2 hm1 hm2 hcov1 hcov2 =>
      rw [h2]
      dsimp only
      rw [if_neg (by simp)]
      dsimp only
      rcases Nat.lt_or_ge j mid with hjm | hjm
      · have h1t := ih c1 lo mid s j t u v hcov1
          (by have := covers_idx_lt hcov1; omega) (by omega)
          hj1 hjm hhit ht ht2
        rw [h1t, Bool.true_or]
      · by_cases hta : t ≤ ((travNode nodes tris r minT fuel c1
            s).2).maxT
        · have h2t := ih c2 mid hi _ j t u v hcov2
            (by have := covers_idx_lt hcov2; omega) hhi hjm hj2 hhit
            ht hta
          rw [h2t, Bool.or_true]
        · cases hf1 : (travNode nodes tris r minT fuel c1 s).1 with
          | true => rw [Bool.true_or]
          | false =>
            exfalso
            rw [travNode_false nodes tris r minT fuel c1 s hf1] at hta
            exact hta ht2

theorem validBest_init (tris : List TriAccelTriangle) (r : Ray)
    (minT maxT : ℚ) :
    validBest tris r minT maxT ⟨maxT, none⟩ := by
  refine ⟨le_rfl, fun _ => rfl, ?_⟩
  intro i u v h
  cases h

theorem intersect_nearest (s : Scene) (r : Ray) (minT maxT : ℚ) :
    ((∃ j, j < (sceneTriangles s).length ∧ ∃ t u v : ℚ,
        triIntersect (triAt (sceneTriangles s) j).p1
          (triAt (sceneTriangles s) j).p2 (triAt (sceneTriangles s) j).p3
          r minT maxT = some (t, u, v)) →
      ∃ hr, intersect (buildAccel s) s r minT maxT = some hr) ∧
    (∀ hr, intersect (buildAccel s) s r minT maxT = some hr →
      hr.minIndex < (sceneTriangles s).length ∧
      triHit (triAt (sceneTriangles s) hr.minIndex).p1
        (triAt (sceneTriangles s) hr.minIndex).p2
        (triAt (sceneTriangles s) hr.minIndex).p3 r =
        some (hr.t, hr.b1, hr.b2) ∧
      minT ≤ hr.t ∧ hr.t ≤ maxT ∧
      (∀ j, j < (sceneTriangles s).length → ∀ t u v : ℚ,
        triIntersect (triAt (sceneTriangles s) j).p1
          (triAt (sceneTriangles s) j).p2 (triAt (sceneTriangles s) j).p3
          r minT maxT = some (t, u, v) → hr.t ≤ t)) := by
  obtain ⟨hpos, hcov, _⟩ := buildAccel_covers s
  have hg : ∀ j, j < (sceneTriangles s).length →
      boundAt (sceneBounds s) j =
        triBound (triAt (sceneTriangles s) j).p1
          (triAt (sceneTriangles s) j).p2
          (triAt (sceneTriangles s) j).p3 :=
    fun j hj => sceneBounds_at s j hj
  set A := buildAccel s with hA
  have hAT : A.triangles = sceneTriangles s := rfl
  set res := travNode A.nodes A.triangles r minT A.nodes.length 0
    ⟨maxT, none⟩ with hres
  have hvalid : validBest A.triangles r minT maxT res.2 := by
    rw [hres]
    exact travNode_valid A.nodes.length 0 0 (sceneTriangles s).length
      ⟨maxT, none⟩ hcov (le_of_eq (congrArg List.length hAT.symm))
      (validBest_init _ _ _ _)
  have hub : ∀ j, j < (sceneTriangles s).length → ∀ t u v : ℚ,
      triHit (triAt (sceneTriangles s) j).p1
        (triAt (sceneTriangles s) j).p2 (triAt (sceneTriangles s) j).p3
        r = some (t, u, v) → minT ≤ t → res.2.maxT ≤ t := by
    intro j hj t u v hhit ht
    rw [hres]
    exact travNode_ub hg A.nodes.length 0 0 (sceneTriangles s).length
      ⟨maxT, none⟩ j t u v hcov (by omega) le_rfl (by omega) hj hhit ht
  constructor
  · rintro ⟨j, hj, t, u, v, hji⟩
    obtain ⟨hhit, h1, h2⟩ := triIntersect_some hji
    have hflag : res.1 = true := by
      rw [hres]
      exact travNode_complete hg A.nodes.length 0 0
        (sceneTriangles s).length ⟨maxT, none⟩ j t u v hcov (by omega)
        le_rfl (by omega) hj hhit h1 h2
    have hbest := travNode_inv_best A.nodes A.triangles r minT
      A.nodes.length 0 ⟨maxT, none⟩ (hres ▸ hflag)
    rw [← hres] at hbest
    obtain ⟨⟨i, bu, bv⟩, hb⟩ := Option.isSome_iff_exists.mp hbest
    refine ⟨HitRecord.mk i res.2.maxT bu bv
      (triAt A.triangles i).primIndex (triAt A.triangles i).faceIndex
      (vec3addNone r.o (vec3scaleNone r.d res.2.maxT))
      (primAt s (triAt A.triangles i).primIndex), ?_⟩
    unfold intersect
    rw [← hres]
    simp only []
    rw [hflag, if_pos rfl, hb]
  · intro hr hinter
    unfold intersect at hinter
    rw [← hres] at hinter
    simp only [] at hinter
    cases hflag : res.1 with
    | false => rw [hflag] at hinter; simp at hinter
    | true =>
      rw [hflag, if_pos rfl] at hinter
      have hbest := travNode_inv_best A.nodes A.triangles r minT
        A.nodes.length 0 ⟨maxT, none⟩ (hres ▸ hflag)
      rw [← hres] at hbest
      obtain ⟨⟨i, bu, bv⟩, hb⟩ := Option.isSome_iff_exists.mp hbest
      rw [hb] at hinter
      simp only [Option.some.injEq] at hinter
      obtain ⟨hiN, hhit, hminT⟩ := hvalid.2.2 i bu bv hb
      subst hinter
      refine ⟨hiN, hhit, hminT, hvalid.1, ?_⟩
      intro j hj t u v hji
      obtain ⟨hhitj, h1, _⟩ := triIntersect_some hji
      exact hub j hj t u v hhitj h1

/-- C3: for every scene and ray whose window contains hits of two
distinct triangles of the built accelerator, `Intersect` reports a hit,
and the reported record carries the index, hit parameter and barycentric
coordinates of a genuine triangle hit whose parameter is least among the
windowed hits of all triangles (in particular at most those of the two
given ones), regardless of the order in which triangles were inserted
during `Build`. -/
theorem c3_nearest_hit (s : Scene) (r : Ray) (minT maxT : ℚ)
    (i j : ℕ) (hij : i ≠ j)
    (hi : i < (sceneTriangles s).length)
    (hj : j < (sceneTriangles s).length)
    (ti ui vi tj uj vj : ℚ)
    (hhi : triIntersect (triAt (sceneTriangles s) i).p1
      (triAt (sceneTriangles s) i).p2 (triAt (sceneTriangles s) i).p3
      r minT maxT = some (ti, ui, vi))
    (hhj : triIntersect (triAt (sceneTriangles s) j).p1
      (triAt (sceneTriangles s) j).p2 (triAt (sceneTriangles s) j).p3
      r minT maxT = some (tj, uj, vj)) :
    ∃ hr, intersect (buildAccel s) s r minT maxT = some hr ∧
      hr.minIndex < (sceneTriangles s).length ∧
      triHit (triAt (sceneTriangles s) hr.minIndex).p1
        (triAt (sceneTriangles s) hr.minIndex).p2
        (triAt (sceneTriangles s) hr.minIndex).p3 r =
        some (hr.t, hr.b1, hr.b2) ∧
      minT ≤ hr.t ∧ hr.t ≤ maxT ∧ hr.t ≤ ti ∧ hr.t ≤ tj ∧
      (∀ k, k < (sceneTriangles s).length → ∀ t u v : ℚ,
        triIntersect (triAt (sceneTriangles s) k).p1
          (triAt (sceneTriangles s) k).p2
          (triAt (sceneTriangles s) k).p3 r minT maxT =
          some (t, u, v) → hr.t ≤ t) := by
  obtain ⟨hex, hspec⟩ := intersect_nearest s r minT maxT
  obtain ⟨hr, hhr⟩ := hex ⟨i, hi, ti, ui, vi, hhi⟩
  obtain ⟨h1, h2, h3, h4, h5⟩ := hspec hr hhr
  exact ⟨hr, hhr, h1, h2, h3, h4, h5 i hi ti ui vi hhi,
    h5 j hj tj uj vj hhj, h5⟩

/-- Witness for C3 at the two-triangle scene: the farther triangle was
inserted first, yet the reported hit parameter is at most the nearer
triangle's `t = 1`. -/
theorem c3_witness :
    (0 : ℕ) < (sceneTriangles twoTriScene).length ∧
    (1 : ℕ) < (sceneTriangles twoTriScene).length ∧
    ∃ hr, intersect (buildAccel twoTriScene) twoTriScene zRay 0 100 =
      some hr ∧ hr.t ≤ 1 := by
  have h0 : triIntersect (triAt (sceneTriangles twoTriScene) 0).p1
      (triAt (sceneTriangles twoTriScene) 0).p2
      (triAt (sceneTriangles twoTriScene) 0).p3 zRay 0 100 =
      some (2, 1/4, 1/4) := by
    have he : triAt (sceneTriangles twoTriScene) 0 =
        ⟨0, 0, ⟨0, 0, 2⟩, ⟨4, 0, 2⟩, ⟨0, 4, 2⟩⟩ := by
      norm_num [triAt, sceneTriangles, twoTriScene, primTriangles,
        numFaces, mkTriangle, worldVertex, posAt, faceAt, vec3ofVec4,
        mat4mulVec, mat4Identity, List.enum, List.range_succ, List.getD]
    rw [he]
    norm_num [triIntersect, triHit, zRay, cross, dotNone3, vec3subNone]
  have h1 : triIntersect (triAt (sceneTriangles twoTriScene) 1).p1
      (triAt (sceneTriangles twoTriScene) 1).p2
      (triAt (sceneTriangles twoTriScene) 1).p3 zRay 0 100 =
      some (1, 1/4, 1/4) := by
    have he : triAt (sceneTriangles twoTriScene) 1 =
        ⟨1, 0, ⟨0, 0, 1⟩, ⟨4, 0, 1⟩, ⟨0, 4, 1⟩⟩ := by
      norm_num [triAt, sceneTriangles, twoTriScene, primTriangles,
        numFaces, mkTriangle, worldVertex, posAt, faceAt, vec3ofVec4,
        mat4mulVec, mat4Identity, List.enum, List.range_succ, List.getD]
    rw [he]
    norm_num [triIntersect, triHit, zRay, cross, dotNone3, vec3subNone]
  obtain ⟨hr, hA, _, _, _, _, _, hG, _⟩ :=
    c3_nearest_hit twoTriScene zRay 0 100 0 1 (by decide) (by decide)
      (by decide) 2 (1/4) (1/4) 1 (1/4) (1/4) h0 h1
  exact ⟨by decide, by decide, hr, hA, hG⟩

theorem sceneTriangles_eq_from (s : Scene) :
    sceneTriangles s = sceneTrianglesFrom 0 s := rfl

theorem sceneTrianglesFrom_cons (n : ℕ) (p : Primitive) (s : Scene) :
    sceneTrianglesFrom n (p :: s) =
      primTriangles n p ++ sceneTrianglesFrom (n + 1) s := by
  simp [sceneTrianglesFrom, List.enumFrom]

theorem annotList_cons (p : Primitive) (s : Scene) :
    annotList (p :: s) =
      (match p.mesh with
       | none => []
       | some m =>
         (List.range (numFaces m)).map (fun j =>
           (j, worldVertex p.transform m (faceAt m (3 * j)),
            worldVertex p.transform m (faceAt m (3 * j + 1)),
            worldVertex p.transform m (faceAt m (3 * j + 2)), p))) ++
      annotList s := by
  simp [annotList]

theorem primTriangles_annot (sf : Scene) (i : ℕ) (p : Primitive)
    (hp : primAt sf i = p) :
    (primTriangles i p).map (annotTri sf) =
      (match p.mesh with
       | none => []
       | some m =>
         (List.range (numFaces m)).map (fun j =>
           (j, worldVertex p.transform m (faceAt m (3 * j)),
            worldVertex p.transform m (faceAt m (3 * j + 1)),
            worldVertex p.transform m (faceAt m (3 * j + 2)), p))) := by
  cases hm : p.mesh with
  | none => simp [primTriangles, hm]
  | some m =>
    simp only [primTriangles, hm, List.map_map]
    refine List.map_congr_left ?_
    intro j _
    simp [annotTri, mkTriangle, hp]

theorem annot_from (sf : Scene) :
    ∀ (s : Scene) (n : ℕ),
      (∀ k, k < s.length →
        primAt sf (n + k) = s.getD k ⟨none, mat4Identity⟩) →
      (sceneTrianglesFrom n s).map (annotTri sf) = annotList s := by
  intro s
  induction s with
  | nil => intro n _; rfl
  | cons p rest ih =>
    intro n hsub
    have hp : primAt sf n = p := by
      have := hsub 0 (by simp)
      simpa using this
    rw [sceneTrianglesFrom_cons, List.map_append,
      primTriangles_annot sf n p hp, annotList_cons]
    congr 1
    refine ih (n + 1) ?_
    intro k hk
    have := hsub (k + 1) (by simp; omega)
    rw [show n + (k + 1) = n + 1 + k by omega] at this
    simpa using this

theorem sceneTriangles_annot (s : Scene) :
    (sceneTriangles s).map (annotTri s) = annotList s := by
  rw [sceneTriangles_eq_from]
  refine annot_from s s 0 ?_
  intro k hk
  simp [primAt]

theorem annotList_filter (s : Scene) :
    annotList (s.filter (fun p => p.mesh.isSome)) = annotList s := by
  induction s with
  | nil => rfl
  | cons p rest ih =>
    cases hm : p.mesh with
    | none =>
      rw [List.filter_cons, annotList_cons]
      simp [hm, ih]
    | some m =>
      rw [List.filter_cons]
      simp only [hm, Option.isSome_some, if_true]
      rw [annotList_cons, annotList_cons, ih]

theorem annot_filter_eq (s : Scene) :
    (sceneTriangles s).map (annotTri s) =
      (sceneTriangles (s.filter (fun p => p.mesh.isSome))).map
        (annotTri (s.filter (fun p => p.mesh.isSome))) := by
  rw [sceneTriangles_annot, sceneTriangles_annot, annotList_filter]

theorem annot_pointwise {s s' : Scene}
    {tris1 tris2 : List TriAccelTriangle}
    (h : tris1.map (annotTri s) = tris2.map (annotTri s')) {i : ℕ}
    (hi : i < tris1.length) :
    annotTri s (triAt tris1 i) = annotTri s' (triAt tris2 i) := by
  have hlen : tris1.length = tris2.length := by
    have := congrArg List.length h
    simpa using this
  have h2 := congrArg (fun l => l[i]?) h
  simp only [List.getElem?_map] at h2
  rw [List.getElem?_eq_getElem hi,
    List.getElem?_eq_getElem (show i < tris2.length by omega)] at h2
  simp only [Option.map_some', Option.some.injEq] at h2
  unfold triAt
  rw [List.getD_eq_getElem?_getD, List.getD_eq_getElem?_getD,
    List.getElem?_eq_getElem hi,
    List.getElem?_eq_getElem (show i < tris2.length by omega)]
  simpa using h2

theorem tris_geom_eq {s s' : Scene} {tris1 tris2 : List TriAccelTriangle}
    (h : tris1.map (annotTri s) = tris2.map (annotTri s')) :
    tris1.map (fun t => (t.p1, t.p2, t.p3)) =
      tris2.map (fun t => (t.p1, t.p2, t.p3)) := by
  have h2 := congrArg (List.map
    (fun q : ℕ × Vec3 × Vec3 × Vec3 × Primitive =>
      (q.2.1, q.2.2.1, q.2.2.2.1))) h
  rw [List.map_map, List.map_map] at h2
  calc tris1.map (fun t => (t.p1, t.p2, t.p3))
      = tris1.map ((fun q : ℕ × Vec3 × Vec3 × Vec3 × Primitive =>
          (q.2.1, q.2.2.1, q.2.2.2.1)) ∘ annotTri s) :=
        List.map_congr_left (fun t _ => rfl)
    _ = tris2.map ((fun q : ℕ × Vec3 × Vec3 × Vec3 × Primitive =>
          (q.2.1, q.2.2.1, q.2.2.2.1)) ∘ annotTri s') := h2
    _ = tris2.map (fun t => (t.p1, t.p2, t.p3)) :=
        List.map_congr_left (fun t _ => rfl)

theorem triAt_geom_eq {tris1 tris2 : List TriAccelTriangle}
    (h : tris1.map (fun t => (t.p1, t.p2, t.p3)) =
      tris2.map (fun t => (t.p1, t.p2, t.p3))) (i : ℕ) :
    (triAt tris1 i).p1 = (triAt tris2 i).p1 ∧
    (triAt tris1 i).p2 = (triAt tris2 i).p2 ∧
    (triAt tris1 i).p3 = (triAt tris2 i).p3 := by
  have hlen : tris1.length = tris2.length := by
    have := congrArg List.length h
    simpa using this
  have h2 := congrArg (fun l => l[i]?) h
  simp only [List.getElem?_map] at h2
  unfold triAt
  rw [List.getD_eq_getElem?_getD, List.getD_eq_getElem?_getD]
  by_cases hi : i < tris1.length
  · rw [List.getElem?_eq_getElem hi,
      List.getElem?_eq_getElem (show i < tris2.length by omega)] at h2 ⊢
    simp only [Option.map_some', Option.some.injEq, Prod.mk.injEq] at h2
    simpa using h2
  · rw [List.getElem?_eq_none (by omega),
      List.getElem?_eq_none (by omega)]
    exact ⟨rfl, rfl, rfl⟩

theorem travNode_congr {tris1 tris2 : List TriAccelTriangle}
    (nodes : List BVHNode) (r : Ray) (minT : ℚ)
    (h : tris1.map (fun t => (t.p1, t.p2, t.p3)) =
      tris2.map (fun t => (t.p1, t.p2, t.p3))) :
    ∀ (fuel idx : ℕ) (s : TravState),
      travNode nodes tris1 r minT fuel idx s =
        travNode nodes tris2 r minT fuel idx s := by
  have hstep : leafStep tris1 r minT = leafStep tris2 r minT := by
    funext hs i
    obtain ⟨h1, h2, h3⟩ := triAt_geom_eq h i
    unfold leafStep
    simp only []
    rw [h1, h2, h3]
  intro fuel
  induction fuel with
  | zero => intro idx s; rfl
  | succ fuel ih =>
    intro idx s
    rw [travNode_succ, travNode_succ]
    split
    · split
      · unfold leafLoop
        rw [hstep]
      · rw [ih, ih]
    · rfl

/-- C7: primitives with an absent mesh handle contribute nothing.
Building a scene yields the same annotated triangle list (face index,
world-space vertices, resolved owning primitive), the identical node
list, and, for every ray and window, the same observable intersection
result as building the scene with the mesh-less primitives removed:
the hit outcome, hit position, barycentric coordinates, face index and
resolved primitive all agree. -/
theorem c7_null_mesh_skipped (s : Scene) :
    ((sceneTriangles s).map (annotTri s) =
      (sceneTriangles (s.filter (fun p => p.mesh.isSome))).map
        (annotTri (s.filter (fun p => p.mesh.isSome)))) ∧
    (buildAccel s).nodes =
      (buildAccel (s.filter (fun p => p.mesh.isSome))).nodes ∧
    ∀ (r : Ray) (minT maxT : ℚ),
      (intersect (buildAccel s) s r minT maxT).map hitObservable =
        (intersect (buildAccel (s.filter (fun p => p.mesh.isSome)))
          (s.filter (fun p => p.mesh.isSome)) r minT maxT).map
          hitObservable := by
  have hannot := annot_filter_eq s
  have hgeom := tris_geom_eq hannot
  have hlen : (sceneTriangles s).length =
      (sceneTriangles (s.filter (fun p => p.mesh.isSome))).length := by
    have := congrArg List.length hannot
    simpa using this
  have hbounds : sceneBounds s =
      sceneBounds (s.filter (fun p => p.mesh.isSome)) := by
    unfold sceneBounds
    have h2 := congrArg (List.map
      (fun g : Vec3 × Vec3 × Vec3 => triBound g.1 g.2.1 g.2.2)) hgeom
    rw [List.map_map, List.map_map] at h2
    calc (sceneTriangles s).map (fun t => triBound t.p1 t.p2 t.p3)
        = (sceneTriangles s).map
            ((fun g : Vec3 × Vec3 × Vec3 => triBound g.1 g.2.1 g.2.2) ∘
              (fun t => (t.p1, t.p2, t.p3))) :=
          List.map_congr_left (fun t _ => rfl)
      _ = (sceneTriangles (s.filter (fun p => p.mesh.isSome))).map
            ((fun g : Vec3 × Vec3 × Vec3 => triBound g.1 g.2.1 g.2.2) ∘
              (fun t => (t.p1, t.p2, t.p3))) := h2
      _ = (sceneTriangles (s.filter (fun p => p.mesh.isSome))).map
            (fun t => triBound t.p1 t.p2 t.p3) :=
          List.map_congr_left (fun t _ => rfl)
  have hnodes : (buildAccel s).nodes =
      (buildAccel (s.filter (fun p => p.mesh.isSome))).nodes := by
    rw [buildAccel_nodes, buildAccel_nodes, hbounds, hlen]
  refine ⟨hannot, hnodes, ?_⟩
  intro r minT maxT
  obtain ⟨hpos, hcov, _⟩ := buildAccel_covers s
  have htrav : travNode (buildAccel s).nodes (buildAccel s).triangles
      r minT (buildAccel s).nodes.length 0 ⟨maxT, none⟩ =
      travNode (buildAccel (s.filter (fun p => p.mesh.isSome))).nodes
        (buildAccel (s.filter (fun p => p.mesh.isSome))).triangles
        r minT
        (buildAccel (s.filter (fun p => p.mesh.isSome))).nodes.length
        0 ⟨maxT, none⟩ := by
    rw [← hnodes]
    exact travNode_congr (buildAccel s).nodes r minT hgeom
      (buildAccel s).nodes.length 0 ⟨maxT, none⟩
  set res := travNode (buildAccel s).nodes (buildAccel s).triangles
    r minT (buildAccel s).nodes.length 0 ⟨maxT, none⟩ with hres
  unfold intersect
  rw [← hres, ← htrav]
  simp only []
  cases hflag : res.1 with
  | false =>
    rw [if_neg Bool.false_ne_true, if_neg Bool.false_ne_true]
  | true =>
    rw [if_pos rfl, if_pos rfl]
    have hvalid : validBest (buildAccel s).triangles r minT maxT
        res.2 := by
      rw [hres]
      exact travNode_valid (buildAccel s).nodes.length 0 0
        (sceneTriangles s).length ⟨maxT, none⟩ hcov le_rfl
        (validBest_init _ _ _ _)
    have hbest := travNode_inv_best (buildAccel s).nodes
      (buildAccel s).triangles r minT (buildAccel s).nodes.length 0
      ⟨maxT, none⟩ (hres ▸ hflag)
    rw [← hres] at hbest
    obtain ⟨⟨i, bu, bv⟩, hb⟩ := Option.isSome_iff_exists.mp hbest
    rw [hb]
    obtain ⟨hiN, _, _⟩ := hvalid.2.2 i bu bv hb
    have hap := annot_pointwise hannot
      (show i < (sceneTriangles s).length from hiN)
    have hface : (triAt (sceneTriangles s) i).faceIndex =
        (triAt (sceneTriangles
          (s.filter (fun p => p.mesh.isSome))) i).faceIndex :=
      congrArg (fun q => q.1) hap
    have hprim : primAt s (triAt (sceneTriangles s) i).primIndex =
        primAt (s.filter (fun p => p.mesh.isSome))
          (triAt (sceneTriangles
            (s.filter (fun p => p.mesh.isSome))) i).primIndex :=
      congrArg (fun q => q.2.2.2.2) hap
    show some (hitObservable _) = some (hitObservable _)
    unfold hitObservable
    dsimp only
    rw [buildAccel_triangles s,
      buildAccel_triangles (List.filter (fun p => p.mesh.isSome) s),
      hface, hprim]

end LM
